import Mathlib

/-!
Verification of the transform/load pipeline of the sales ETL repository
(`etl_pipeline/transform.py`, `etl_pipeline/load.py`).

Modelling conventions:
* Python strings are lists of Unicode codepoints (`List Nat`) where the code
  manipulates them character by character, and Lean `String` where they are
  only compared for equality (column names inside dataframes).
* A pandas cell is an optional value, `none` standing for NaN/NaT/None.
* A dataframe is a list of named, typed columns; pandas dtype dispatch
  (`dtype.kind in "biufc"`, `np.issubdtype(..., np.number)`) becomes a match
  on the column payload constructor.
* Machine floats are modelled by `ℚ`; the repository's arithmetic (medians,
  quantiles, ratios) is exact rational arithmetic on the values involved.
-/

namespace ETL

/-- Python whitespace characters stripped by `str.strip()` (ASCII range;
column names in this repository are ASCII). -/
def pyIsSpace (c : Nat) : Bool :=
  decide (c = 32 ∨ c = 9 ∨ c = 10 ∨ c = 11 ∨ c = 12 ∨ c = 13)

/-- Python `str.lower` on a single codepoint (ASCII case mapping). -/
def pyLowerChar (c : Nat) : Nat := if 65 ≤ c ∧ c ≤ 90 then c + 32 else c

/-- Python `str.strip()`: drop leading and trailing whitespace. -/
def pyStrip (s : List Nat) : List Nat :=
  ((s.dropWhile pyIsSpace).reverse.dropWhile pyIsSpace).reverse

/-- Python `str.lower()`. -/
def pyLower (s : List Nat) : List Nat := s.map pyLowerChar

/-- Python `str.replace(" ", "_")`: codepoint 32 becomes codepoint 95. -/
def pyReplaceSpaceUnderscore (s : List Nat) : List Nat :=
  s.map fun c => if c = 32 then 95 else c

/-- transform.py line 79: the per-name part of `standardize_column_names`,
`c.strip().lower().replace(" ", "_")`. -/
def standardizeName (s : List Nat) : List Nat :=
  pyReplaceSpaceUnderscore (pyLower (pyStrip s))

/-- transform.py `standardize_column_names` (lines 77-80), acting on the list
of column names. -/
def standardize_column_names (ns : List (List Nat)) : List (List Nat) :=
  ns.map standardizeName

theorem pyLowerChar_idem (c : Nat) : pyLowerChar (pyLowerChar c) = pyLowerChar c := by
  unfold pyLowerChar
  by_cases h : 65 ≤ c ∧ c ≤ 90
  · rw [if_pos h, if_neg (by omega)]
  · rw [if_neg h, if_neg h]

theorem pyIsSpace_pyLowerChar (c : Nat) : pyIsSpace (pyLowerChar c) = pyIsSpace c := by
  unfold pyLowerChar pyIsSpace
  by_cases h : 65 ≤ c ∧ c ≤ 90
  · rw [if_pos h, decide_eq_decide]
    omega
  · rw [if_neg h]

/-- Every character of a standardized name is a non-space character fixed by
the ASCII lowercase map. -/
theorem standardizeName_char (s : List Nat) (x : Nat) (hx : x ∈ standardizeName s) :
    x ≠ 32 ∧ pyLowerChar x = x := by
  unfold standardizeName pyReplaceSpaceUnderscore pyLower at hx
  rcases List.mem_map.mp hx with ⟨y, hy, hrep⟩
  rcases List.mem_map.mp hy with ⟨c, _, hlow⟩
  by_cases h32 : y = 32
  · subst h32
    rw [if_pos rfl] at hrep
    subst hrep
    refine ⟨by omega, ?_⟩
    unfold pyLowerChar
    rw [if_neg (by omega)]
  · rw [if_neg h32] at hrep
    subst hrep
    exact ⟨h32, by rw [← hlow, pyLowerChar_idem]⟩

/-- A list has no whitespace at either end. -/
def noEdgeSpace (l : List Nat) : Prop :=
  (∀ a, l.head? = some a → pyIsSpace a = false) ∧
  (∀ a, l.reverse.head? = some a → pyIsSpace a = false)

theorem head?_dropWhile_not (p : Nat → Bool) (l : List Nat) (a : Nat)
    (h : (l.dropWhile p).head? = some a) : p a = false := by
  induction l with
  | nil => simp [List.dropWhile] at h
  | cons b t ih =>
    rw [List.dropWhile_cons] at h
    by_cases hb : p b
    · rw [if_pos hb] at h
      exact ih h
    · rw [if_neg hb] at h
      simp at h
      subst h
      exact Bool.eq_false_iff.mpr hb

theorem dropWhile_eq_self_of_head (p : Nat → Bool) (l : List Nat)
    (h : ∀ a, l.head? = some a → p a = false) : l.dropWhile p = l := by
  cases l with
  | nil => rfl
  | cons a t =>
    rw [List.dropWhile_cons, if_neg]
    rw [h a rfl]
    simp

theorem pyStrip_noEdgeSpace (s : List Nat) : noEdgeSpace (pyStrip s) := by
  constructor
  · intro a ha
    unfold pyStrip at ha
    set u := s.dropWhile pyIsSpace with hu
    set v := u.reverse.dropWhile pyIsSpace with hv
    have hsuf : v <:+ u.reverse := List.dropWhile_suffix pyIsSpace
    have hpre : v.reverse <+: u := by
      have := List.reverse_prefix.mpr hsuf
      simpa using this
    rcases hpre with ⟨t, ht⟩
    cases hvr : v.reverse with
    | nil => rw [hvr] at ha; simp at ha
    | cons b tb =>
      rw [hvr] at ha
      simp at ha
      subst ha
      have hu' : u.head? = some b := by
        rw [← ht, hvr]
        rfl
      exact head?_dropWhile_not pyIsSpace s b hu'
  · intro a ha
    unfold pyStrip at ha
    rw [List.reverse_reverse] at ha
    exact head?_dropWhile_not pyIsSpace _ a ha

theorem noEdgeSpace_map (f : Nat → Nat) (l : List Nat)
    (hf : ∀ c, pyIsSpace c = false → pyIsSpace (f c) = false)
    (hl : noEdgeSpace l) : noEdgeSpace (l.map f) := by
  constructor
  · intro a ha
    rw [List.head?_map] at ha
    cases hh : l.head? with
    | none => rw [hh] at ha; simp at ha
    | some b =>
      rw [hh] at ha
      simp at ha
      subst ha
      exact hf b (hl.1 b hh)
  · intro a ha
    rw [← List.map_reverse, List.head?_map] at ha
    cases hh : l.reverse.head? with
    | none => rw [hh] at ha; simp at ha
    | some b =>
      rw [hh] at ha
      simp at ha
      subst ha
      exact hf b (hl.2 b hh)

theorem pyStrip_of_noEdgeSpace (l : List Nat) (h : noEdgeSpace l) : pyStrip l = l := by
  unfold pyStrip
  rw [dropWhile_eq_self_of_head pyIsSpace l h.1]
  rw [dropWhile_eq_self_of_head pyIsSpace l.reverse h.2]
  exact List.reverse_reverse l

theorem standardizeName_noEdgeSpace (s : List Nat) : noEdgeSpace (standardizeName s) := by
  unfold standardizeName pyLower pyReplaceSpaceUnderscore
  apply noEdgeSpace_map
  · intro c hc
    by_cases h32 : c = 32
    · subst h32
      unfold pyIsSpace at hc
      simp at hc
    · rw [if_neg h32]
      exact hc
  · apply noEdgeSpace_map
    · intro c hc
      rw [pyIsSpace_pyLowerChar]
      exact hc
    · exact pyStrip_noEdgeSpace s

theorem standardizeName_idem (s : List Nat) :
    standardizeName (standardizeName s) = standardizeName s := by
  have h1 : pyStrip (standardizeName s) = standardizeName s :=
    pyStrip_of_noEdgeSpace _ (standardizeName_noEdgeSpace s)
  have h2 : pyLower (standardizeName s) = standardizeName s := by
    unfold pyLower
    rw [List.map_congr_left fun a ha => (standardizeName_char s a ha).2]
    exact List.map_id _
  have h3 : pyReplaceSpaceUnderscore (standardizeName s) = standardizeName s := by
    unfold pyReplaceSpaceUnderscore
    rw [List.map_congr_left fun a ha => if_neg ((standardizeName_char s a ha).1)]
    exact List.map_id _
  calc standardizeName (standardizeName s)
      = pyReplaceSpaceUnderscore (pyLower (pyStrip (standardizeName s))) := rfl
    _ = standardizeName s := by rw [h1, h2, h3]

/-- C9: field-name standardization (strip, lowercase, spaces to underscore,
transform.py lines 77-80) is idempotent: standardizing an already-standardized
set of column names is a no-op. -/
theorem standardize_column_names_idempotent (ns : List (List Nat)) :
    standardize_column_names (standardize_column_names ns) = standardize_column_names ns := by
  unfold standardize_column_names
  rw [List.map_map]
  exact List.map_congr_left fun s _ => standardizeName_idem s

/-- Row-wise semantics of `DataFrame.drop_duplicates(subset=[pk_col])` with the
default `keep="first"` (transform.py line 158): scan rows in order, keeping a
row exactly when its key value has not been seen before.  `seen` is the set of
key values already encountered. -/
def dedupFirstAux {α κ : Type} [DecidableEq κ] (key : α → κ) : List κ → List α → List α
  | _, [] => []
  | seen, a :: rest =>
    if key a ∈ seen then dedupFirstAux key seen rest
    else a :: dedupFirstAux key (key a :: seen) rest

/-- `DataFrame.drop_duplicates(subset=[pk_col])`, rows viewed as records with a
primary-key projection `key`.  pandas treats NaN keys as equal to each other,
matching plain equality on an option-valued `key`. -/
def drop_duplicates {α κ : Type} [DecidableEq κ] (key : α → κ) (l : List α) : List α :=
  dedupFirstAux key [] l

theorem dedupFirstAux_sublist {α κ : Type} [DecidableEq κ] (key : α → κ)
    (seen : List κ) (l : List α) : List.Sublist (dedupFirstAux key seen l) l := by
  induction l generalizing seen with
  | nil => exact List.Sublist.refl _
  | cons a rest ih =>
    unfold dedupFirstAux
    by_cases h : key a ∈ seen
    · rw [if_pos h]
      exact (ih seen).cons a
    · rw [if_neg h]
      exact (ih (key a :: seen)).cons₂ a

theorem dedupFirstAux_keys {α κ : Type} [DecidableEq κ] (key : α → κ)
    (seen : List κ) (l : List α) :
    ((dedupFirstAux key seen l).map key).Nodup ∧
    ∀ k ∈ (dedupFirstAux key seen l).map key, k ∉ seen := by
  induction l generalizing seen with
  | nil => exact ⟨List.nodup_nil, by intro k hk; simp [dedupFirstAux] at hk⟩
  | cons a rest ih =>
    unfold dedupFirstAux
    by_cases h : key a ∈ seen
    · rw [if_pos h]
      exact ih seen
    · rw [if_neg h]
      rcases ih (key a :: seen) with ⟨hnd, hout⟩
      constructor
      · rw [List.map_cons, List.nodup_cons]
        refine ⟨fun hmem => ?_, hnd⟩
        exact hout (key a) hmem (List.mem_cons_self _ _)
      · intro k hk
        rw [List.map_cons, List.mem_cons] at hk
        rcases hk with hk | hk
        · rw [hk]; exact h
        · intro hks
          exact hout k hk (List.mem_cons_of_mem _ hks)

theorem dedupFirstAux_find? {α κ : Type} [DecidableEq κ] (key : α → κ)
    (seen : List κ) (l : List α) (r : α) (hr : r ∈ dedupFirstAux key seen l) :
    l.find? (fun b => key b == key r) = some r := by
  induction l generalizing seen with
  | nil => simp [dedupFirstAux] at hr
  | cons a rest ih =>
    unfold dedupFirstAux at hr
    by_cases h : key a ∈ seen
    · rw [if_pos h] at hr
      have hkr : key r ∉ seen :=
        (dedupFirstAux_keys key seen rest).2 (key r) (List.mem_map_of_mem key hr)
      have hne : key a ≠ key r := fun he => hkr (he ▸ h)
      rw [List.find?_cons_of_neg _ (by simp [hne])]
      exact ih seen hr
    · rw [if_neg h, List.mem_cons] at hr
      rcases hr with hr | hr
      · subst hr
        rw [List.find?_cons_of_pos _ (by simp)]
      · have hkr : key r ∉ key a :: seen :=
          (dedupFirstAux_keys key (key a :: seen) rest).2 (key r) (List.mem_map_of_mem key hr)
        have hne : key a ≠ key r := fun he => hkr (he ▸ List.mem_cons_self _ _)
        rw [List.find?_cons_of_neg _ (by simp [hne])]
        exact ih (key a :: seen) hr

theorem dedupFirstAux_covers {α κ : Type} [DecidableEq κ] (key : α → κ)
    (seen : List κ) (l : List α) (k : κ) (hk : k ∈ l.map key) (hks : k ∉ seen) :
    ∃ r ∈ dedupFirstAux key seen l, key r = k := by
  induction l generalizing seen with
  | nil => simp at hk
  | cons a rest ih =>
    unfold dedupFirstAux
    rw [List.map_cons, List.mem_cons] at hk
    by_cases h : key a ∈ seen
    · rw [if_pos h]
      rcases hk with hk | hk
      · exact absurd (hk ▸ h) hks
      · exact ih seen hk hks
    · rw [if_neg h]
      by_cases hak : k = key a
      · exact ⟨a, List.mem_cons_self _ _, hak.symm⟩
      · rcases hk with hk | hk
        · exact absurd hk hak
        · rcases ih (key a :: seen) hk (by
            intro hmem
            rcases List.mem_cons.mp hmem with hmem | hmem
            · exact hak hmem
            · exact hks hmem) with ⟨r, hrmem, hrk⟩
          exact ⟨r, List.mem_cons_of_mem _ hrmem, hrk⟩

/-- C1: after the primary-key deduplication `df_all.drop_duplicates(subset=[pk_col])`
(transform.py line 158), no two surviving records share a primary-key value, the
surviving records form a sublist of the input (original relative order of first
occurrences preserved), every survivor is the first record of the input carrying
its key value, and every key value of the input is represented by a survivor. -/
theorem drop_duplicates_first_occurrence {α κ : Type} [DecidableEq κ]
    (key : α → κ) (l : List α) :
    ((drop_duplicates key l).map key).Nodup ∧
    List.Sublist (drop_duplicates key l) l ∧
    (∀ r ∈ drop_duplicates key l, l.find? (fun b => key b == key r) = some r) ∧
    (∀ k ∈ l.map key, ∃ r ∈ drop_duplicates key l, key r = k) :=
  ⟨(dedupFirstAux_keys key [] l).1,
   dedupFirstAux_sublist key [] l,
   fun r hr => dedupFirstAux_find? key [] l r hr,
   fun k hk => dedupFirstAux_covers key [] l k hk (List.not_mem_nil k)⟩

/-- Witness for C1 on a concrete record set: records are (order id, payload)
pairs, keys 1,2,1; the survivors are the first occurrences (1,10) and (2,20). -/
theorem drop_duplicates_first_occurrence_witness :
    ((drop_duplicates Prod.fst [(1,10),(2,20),(1,30)]).map (Prod.fst (α := Nat) (β := Nat))).Nodup ∧
    [(1,10),(2,20),(1,30)].find? (fun b => Prod.fst b == 1) = some (1,10) := by
  refine ⟨(drop_duplicates_first_occurrence Prod.fst [(1,10),(2,20),(1,30)]).1, ?_⟩
  have h := (drop_duplicates_first_occurrence Prod.fst [(1,10),(2,20),(1,30)]).2.2.1
    (1,10) (by decide)
  exact h

/-- A scalar dataframe value: float (`q`), string (`s`), or datetime (`d`,
datetimes as whole-day counts). -/
inductive V : Type
  | q (x : ℚ)
  | s (x : String)
  | d (x : Int)
deriving DecidableEq

/-- The payload of one pandas column, tagged with its dtype: float64 (`nums`),
object (`strs`), datetime64 (`dates`).  `none` is NaN / None / NaT. -/
inductive ColData : Type
  | nums (vals : List (Option ℚ))
  | strs (vals : List (Option String))
  | dates (vals : List (Option Int))
deriving DecidableEq

/-- One named column of a dataframe. -/
structure Column where
  name : String
  data : ColData
deriving DecidableEq

/-- A dataframe is its list of columns (pandas column order). -/
abbrev Df := List Column

/-- Number of rows stored in a column. -/
def ColData.len : ColData → Nat
  | nums vs => vs.length
  | strs vs => vs.length
  | dates vs => vs.length

/-- The cells of a column as type-tagged optional scalars. -/
def ColData.cells : ColData → List (Option V)
  | nums vs => vs.map (Option.map V.q)
  | strs vs => vs.map (Option.map V.s)
  | dates vs => vs.map (Option.map V.d)

/-- Column lookup `df[n]` (pandas column names are unique; the first match). -/
def findCol : Df → String → Option Column
  | [], _ => none
  | c :: rest, n => if c.name = n then some c else findCol rest n

/-- `n in df.columns`. -/
def hasCol (df : Df) (n : String) : Bool := (findCol df n).isSome

/-- Column assignment `df[n] = data`: overwrite in place when the column
exists, otherwise append it on the right. -/
def setCol (df : Df) (n : String) (d : ColData) : Df :=
  if hasCol df n then df.map fun c => if c.name = n then ⟨n, d⟩ else c
  else df ++ [⟨n, d⟩]

/-- The dataframe is rectangular with `n` rows. -/
def Rect (df : Df) (n : Nat) : Prop := ∀ c ∈ df, c.data.len = n

/-- Keep the entries of `xs` whose mask bit is true (boolean row filtering,
`df[mask]`). -/
def maskList {α : Type} : List Bool → List α → List α
  | k :: ks, x :: xs => if k then x :: maskList ks xs else maskList ks xs
  | _, _ => []

/-- Row filtering applied to one column. -/
def ColData.mask (keep : List Bool) : ColData → ColData
  | nums vs => nums (maskList keep vs)
  | strs vs => strs (maskList keep vs)
  | dates vs => dates (maskList keep vs)

/-- Row filtering `df[mask]` applied to a whole dataframe. -/
def applyMask (keep : List Bool) (df : Df) : Df :=
  df.map fun c => ⟨c.name, c.data.mask keep⟩

/-- Ascending sort of a sample. -/
def sortQ (xs : List ℚ) : List ℚ := xs.insertionSort (· ≤ ·)

/-- pandas `Series.median()` over the non-missing values: the middle element of
the sorted sample for odd size, the mean of the two middle elements for even
size, NaN (`none`) for an empty sample. -/
def medianQ (xs : List ℚ) : Option ℚ :=
  let s := sortQ xs
  let n := s.length
  if n = 0 then none
  else if n % 2 = 1 then some (s.getD (n / 2) 0)
  else some ((s.getD (n / 2 - 1) 0 + s.getD (n / 2) 0) / 2)

/-- Linear interpolation of a sorted sample at fractional position `h`
(numpy/pandas `quantile` with the default `interpolation="linear"`). -/
def interpAt (s : List ℚ) (h : ℚ) : ℚ :=
  let i := (Int.floor h).toNat
  if i + 1 < s.length then
    s.getD i 0 + (h - (i : ℚ)) * (s.getD (i + 1) 0 - s.getD i 0)
  else s.getD i 0

/-- pandas `Series.quantile(p)` over the non-missing values `xs` (meaningful
for nonempty `xs`, as pandas returns NaN on an empty sample). -/
def quantile (xs : List ℚ) (p : ℚ) : ℚ :=
  interpAt (sortQ xs) (p * (((sortQ xs).length : ℚ) - 1))

/-- The value part of transform.py `handle_outliers_iqr` (lines 50-56): Q1, Q3
and IQR over the column's values, then `clip` into
[Q1 - 1.5 IQR, Q3 + 1.5 IQR].  pandas `quantile` ignores NaN and returns NaN on
an all-NaN column, in which case `clip` with NaN bounds changes nothing; and
`Series.clip` keeps NaN cells as NaN. -/
def clipColVals (vs : List (Option ℚ)) : List (Option ℚ) :=
  let xs := vs.filterMap id
  if xs.isEmpty then vs
  else
    let q1 := quantile xs (1/4)
    let q3 := quantile xs (3/4)
    let iqr := q3 - q1
    vs.map (Option.map fun v => min (max v (q1 - 3/2 * iqr)) (q3 + 3/2 * iqr))

/-- One iteration of the `handle_outliers_iqr` loop body for the requested
column name `c`: a column is clipped when its name matches and its dtype is
numeric (`np.issubdtype(..., np.number)`), otherwise left untouched. -/
def clipIfNamed (c : String) (col : Column) : Column :=
  if col.name = c then
    match col.data with
    | ColData.nums vs => ⟨col.name, ColData.nums (clipColVals vs)⟩
    | _ => col
  else col

/-- transform.py `handle_outliers_iqr` (lines 37-58): for each requested column
name in turn, skip it when absent or non-numeric, otherwise clip its values. -/
def handle_outliers_iqr (df : Df) (cols : List String) : Df :=
  cols.foldl (fun d c => d.map (clipIfNamed c)) df

/-- The whole requested-column clipping as one per-column map; for distinct
requested names the loop iterations touch disjoint columns, so the fold
coincides with this map (proved below). -/
def clipIfListed (cols : List String) (col : Column) : Column :=
  if col.name ∈ cols then
    match col.data with
    | ColData.nums vs => ⟨col.name, ColData.nums (clipColVals vs)⟩
    | _ => col
  else col

/-- transform.py lines 160-166 (step 2.2, missing values): per column, numeric
dtype (`dtype.kind in "biufc"`) gets `fillna(median)`, other dtypes get
`fillna("Unknown")`.  `fillna` with a NaN median (all-missing column) leaves
the column unchanged.  Datetime columns cannot occur at this point of
`transform_sales` (date coercion, step 2.3, runs after imputation), so the
model leaves them unchanged. -/
def fillnaColumn (c : Column) : Column :=
  match c.data with
  | ColData.nums vs =>
      ⟨c.name, ColData.nums (vs.map fun v => v.orElse fun _ => medianQ (vs.filterMap id))⟩
  | ColData.strs vs =>
      ⟨c.name, ColData.strs (vs.map fun v => v.orElse fun _ => some "Unknown")⟩
  | ColData.dates _ => c

/-- The per-column loop of transform.py lines 161-166.  Each column is imputed
from its own pre-imputation median, and filling one column does not change any
other column's median, so the loop is an independent per-column map. -/
def imputeMissing (df : Df) : Df := df.map fillnaColumn

/-- Cell-level `pd.to_datetime(..., errors="coerce")`: parser `ps` on string
cells, `pq` on numeric cells (epoch interpretation), identity on already
coerced datetimes; failures and missing cells become NaT (`none`). -/
def toDatetimeVals (ps : String → Option Int) (pq : ℚ → Option Int) :
    ColData → List (Option Int)
  | ColData.strs vs => vs.map fun v => v.bind ps
  | ColData.dates vs => vs
  | ColData.nums vs => vs.map fun v => v.bind pq

/-- transform.py lines 169-175 (step 2.3, order date): when the order-date
column is present, coerce it with `to_datetime(errors="coerce")` and then drop
every row whose coerced order date is NaT (`df_all[df_all[od_col].notna()]`).
Absent column: no-op. -/
def coerce_order_date (ps : String → Option Int) (pq : ℚ → Option Int)
    (odn : String) (df : Df) : Df :=
  match findCol df odn with
  | some c =>
      let parsed := toDatetimeVals ps pq c.data
      applyMask (parsed.map Option.isSome) (setCol df odn (ColData.dates parsed))
  | none => df

/-- transform.py lines 177-181 (step 2.3, ship date): same coercion for the
ship-date column, but rows with unparseable ship dates are retained with a
missing ship date — there is no row filter here. -/
def coerce_ship_date (ps : String → Option Int) (pq : ℚ → Option Int)
    (sdn : String) (df : Df) : Df :=
  match findCol df sdn with
  | some c => setCol df sdn (ColData.dates (toDatetimeVals ps pq c.data))
  | none => df

/-- The value part of transform.py `min_max_scale` (lines 67-72): all zeros
when max equals min, otherwise (v - min) / (max - min).  pandas `min`/`max`
skip NaN; on an all-NaN column both are NaN, the test `col_max == col_min` is
False (NaN is not equal to NaN), and the division yields an all-NaN column. -/
def minMaxNormVals (vs : List (Option ℚ)) : List (Option ℚ) :=
  match (vs.filterMap id).min?, (vs.filterMap id).max? with
  | some mn, some mx =>
      if mx = mn then vs.map fun _ => some 0
      else vs.map (Option.map fun v => (v - mn) / (mx - mn))
  | _, _ => vs.map fun _ => none

/-- transform.py `min_max_scale` (lines 62-73): for each requested column that
is present, add the sibling `_norm` column.  The transform only requests
numeric columns (lines 190-195); a non-numeric column would make the pandas
subtraction raise and is skipped here. -/
def min_max_scale (df : Df) (cols : List String) : Df :=
  cols.foldl (fun d c =>
    match findCol d c with
    | some col =>
        match col.data with
        | ColData.nums vs => setCol d (c ++ "_norm") (ColData.nums (minMaxNormVals vs))
        | _ => d
    | none => d) df

/-- A fixed total order on scalar values used for pandas categorical level
ordering inside `get_dummies`. -/
def V.leB : V → V → Bool
  | V.q a, V.q b => decide (a ≤ b)
  | V.q _, _ => true
  | V.s _, V.q _ => false
  | V.s a, V.s b => decide (a ≤ b)
  | V.s _, V.d _ => true
  | V.d a, V.d b => decide (a ≤ b)
  | V.d _, _ => false

/-- Propositional form of `V.leB`. -/
def vleProp (a b : V) : Prop := V.leB a b = true

instance : DecidableRel vleProp := fun a b => instDecidableEqBool (V.leB a b) true

/-- Indicator-column name `f"COL_LEVEL"`. -/
def levelName (n : String) (v : V) : String :=
  match v with
  | V.q x => n ++ "_" ++ toString x
  | V.s x => n ++ "_" ++ x
  | V.d x => n ++ "_" ++ toString x

/-- The indicator columns produced for one categorical column: one 0/1 column
per distinct non-missing level except the first in sorted level order
(`drop_first=True`); NaN cells get all-zero indicators. -/
def dummyCols (n : String) (cells : List (Option V)) : List Column :=
  (((cells.filterMap id).dedup.insertionSort vleProp).drop 1).map fun v =>
    ⟨levelName n v, ColData.nums (cells.map fun x => some (if x = some v then 1 else 0))⟩

/-- pandas `pd.get_dummies(df, columns=cols, drop_first=True)` (transform.py
line 204): the requested categorical columns are removed and their indicator
columns appended.  The transform passes only names present in the frame
(lines 199-203). -/
def get_dummies (df : Df) (cols : List String) : Df :=
  df.filter (fun c => !(cols.contains c.name)) ++
    (cols.map fun n =>
      match findCol df n with
      | some c => dummyCols n c.data.cells
      | none => []).flatten

/-- Cell-level `pd.to_numeric(..., errors="coerce")`: identity on numeric
columns (the only case arising in `transform_sales`, whose numeric columns are
already numeric at step 3.4), parser `pn` on string cells, day-number cast on
datetimes. -/
def toNumericData (pn : String → Option ℚ) : ColData → ColData
  | ColData.nums vs => ColData.nums vs
  | ColData.strs vs => ColData.nums (vs.map fun v => v.bind pn)
  | ColData.dates vs => ColData.nums (vs.map (Option.map fun z : Int => (z : ℚ)))

/-- transform.py lines 206-212 (step 3.4): defensively re-coerce the
configured numeric columns with `to_numeric` and the two date columns with
`to_datetime`. -/
def reCoerceTypes (pn : String → Option ℚ) (ps : String → Option Int)
    (pq : ℚ → Option Int) (numericCols : List String) (dateCols : List (Option String))
    (df : Df) : Df :=
  let d1 := numericCols.foldl (fun d c => d.map fun col =>
    if col.name = c then ⟨col.name, toNumericData pn col.data⟩ else col) df
  dateCols.foldl (fun d oc =>
    match oc with
    | some cn => d.map fun col =>
        if col.name = cn then ⟨col.name, ColData.dates (toDatetimeVals ps pq col.data)⟩
        else col
    | none => d) d1

/-- `config.id_col.lower().replace(" ", "_")` (transform.py line 153) for the
configured `id_col = "Order ID"`. -/
def configIdColStd : String :=
  String.mk (("Order ID".data.map Char.toLower).map fun c => if c = ' ' then '_' else c)

/-- transform.py lines 152-156: the primary-key column name used for
deduplication — the standardized configured name when that column exists,
otherwise the fallback `"order_id"`. -/
def transformPkCol (df : Df) : String :=
  if hasCol df configIdColStd then configIdColStd else "order_id"

/-- First-occurrence mask over a key column: bit `i` is true exactly when the
key at position `i` did not occur earlier (`seen` accumulates the keys already
encountered).  This is `~df[pk].duplicated()`, the row mask realised by
`drop_duplicates(subset=[pk_col])`. -/
def firstOccMask {κ : Type} [DecidableEq κ] : List κ → List κ → List Bool
  | _, [] => []
  | seen, k :: ks => decide (k ∉ seen) :: firstOccMask (k :: seen) ks

/-- transform.py lines 152-158 (step 2.1): pick the primary-key column and run
`df_all.drop_duplicates(subset=[pk_col])`.  pandas raises a `KeyError` when the
subset column is absent from the frame. -/
def dedup_by_pk (df : Df) : Except String Df :=
  match findCol df (transformPkCol df) with
  | some c => Except.ok (applyMask (firstOccMask [] c.data.cells) df)
  | none => Except.error ("KeyError: " ++ transformPkCol df)

theorem findCol_name (df : Df) (n : String) (c : Column) (h : findCol df n = some c) :
    c.name = n := by
  induction df with
  | nil => simp [findCol] at h
  | cons a rest ih =>
    simp only [findCol] at h
    by_cases ha : a.name = n
    · rw [if_pos ha] at h
      cases h
      exact ha
    · rw [if_neg ha] at h
      exact ih h

theorem findCol_mem (df : Df) (n : String) (c : Column) (h : findCol df n = some c) :
    c ∈ df := by
  induction df with
  | nil => simp [findCol] at h
  | cons a rest ih =>
    simp only [findCol] at h
    by_cases ha : a.name = n
    · rw [if_pos ha] at h
      cases h
      exact List.mem_cons_self _ _
    · rw [if_neg ha] at h
      exact List.mem_cons_of_mem _ (ih h)

theorem find_overwrite_self (df : Df) (n : String) (d : ColData)
    (h : hasCol df n = true) :
    findCol (df.map fun c => if c.name = n then ⟨n, d⟩ else c) n = some ⟨n, d⟩ := by
  induction df with
  | nil => simp [hasCol, findCol] at h
  | cons a rest ih =>
    simp only [List.map_cons]
    by_cases ha : a.name = n
    · rw [if_pos ha]
      simp [findCol]
    · rw [if_neg ha]
      simp only [findCol, if_neg ha]
      exact ih (by simpa [hasCol, findCol, if_neg ha] using h)

theorem find_overwrite_ne (df : Df) (n : String) (d : ColData) (m : String)
    (hne : m ≠ n) :
    findCol (df.map fun c => if c.name = n then ⟨n, d⟩ else c) m = findCol df m := by
  induction df with
  | nil => rfl
  | cons a rest ih =>
    simp only [List.map_cons]
    by_cases ha : a.name = n
    · rw [if_pos ha]
      simp only [findCol]
      rw [if_neg (fun hh => hne (by simpa using hh.symm))]
      rw [if_neg (fun hh => hne (by rw [← ha]; exact hh.symm))]
      exact ih
    · rw [if_neg ha]
      simp only [findCol]
      by_cases ham : a.name = m
      · rw [if_pos ham, if_pos ham]
      · rw [if_neg ham, if_neg ham]
        exact ih

theorem findCol_append_cases (df l2 : Df) (m : String) :
    findCol (df ++ l2) m = ((findCol df m).orElse fun _ => findCol l2 m) := by
  induction df with
  | nil => simp [findCol]
  | cons a rest ih =>
    simp only [List.cons_append, findCol]
    by_cases ham : a.name = m
    · rw [if_pos ham, if_pos ham]
      rfl
    · rw [if_neg ham, if_neg ham]
      exact ih

theorem findCol_setCol_self (df : Df) (n : String) (d : ColData) :
    findCol (setCol df n d) n = some ⟨n, d⟩ := by
  unfold setCol
  by_cases h : hasCol df n
  · rw [if_pos h]
    exact find_overwrite_self df n d h
  · rw [if_neg h]
    rw [findCol_append_cases]
    have hnone : findCol df n = none := by
      unfold hasCol at h
      cases hf : findCol df n with
      | none => rfl
      | some c => rw [hf] at h; simp at h
    rw [hnone]
    simp [findCol]

theorem findCol_setCol_ne (df : Df) (n : String) (d : ColData) (m : String)
    (hne : m ≠ n) : findCol (setCol df n d) m = findCol df m := by
  unfold setCol
  by_cases h : hasCol df n
  · rw [if_pos h]
    exact find_overwrite_ne df n d m hne
  · rw [if_neg h]
    rw [findCol_append_cases]
    have h2 : findCol [(⟨n, d⟩ : Column)] m = none := by
      simp only [findCol]
      rw [if_neg (fun hh : n = m => hne hh.symm)]
    rw [h2]
    cases hf : findCol df m <;> rfl

theorem getD_map {α β : Type} (f : α → β) (l : List α) (i : Nat) (da : α) (db : β)
    (hi : i < l.length) : (l.map f).getD i db = f (l.getD i da) := by
  induction l generalizing i with
  | nil => simp at hi
  | cons a t ih =>
    cases i with
    | zero => simp
    | succ j =>
      simp only [List.map_cons, List.getD_cons_succ]
      exact ih j (by simpa using hi)

theorem getD_zipWith {α β γ : Type} (f : α → β → γ) (a : List α) (b : List β)
    (i : Nat) (da : α) (db : β) (dc : γ) (ha : i < a.length) (hb : i < b.length) :
    (List.zipWith f a b).getD i dc = f (a.getD i da) (b.getD i db) := by
  induction a generalizing b i with
  | nil => simp at ha
  | cons x xs ih =>
    cases b with
    | nil => simp at hb
    | cons y ys =>
      cases i with
      | zero => simp
      | succ j =>
        simp only [List.zipWith_cons_cons, List.getD_cons_succ]
        exact ih ys j (by simpa using ha) (by simpa using hb)

/-- Numeric values of a column (enrichment inputs are numeric in
`transform_sales`; on another dtype the pandas arithmetic would raise, a case
confined by the theorems' typing hypotheses). -/
def colNums : ColData → List (Option ℚ)
  | ColData.nums vs => vs
  | _ => []

/-- String values of a column. -/
def colStrs : ColData → List (Option String)
  | ColData.strs vs => vs
  | _ => []

/-- Datetime values of a column. -/
def colDates : ColData → List (Option Int)
  | ColData.dates vs => vs
  | _ => []

/-- Cell-level `a / b.replace(0, np.nan)` (transform.py lines 215-228): a zero
denominator is first replaced by NaN, and any NaN operand propagates, so the
result of a zero or missing denominator (or missing numerator) is NaN
(`none`) — never a raised division error, and never an infinity (the codomain
`Option ℚ` has no infinite element). -/
def zdiv (a b : Option ℚ) : Option ℚ :=
  a.bind fun x => b.bind fun y => if y = 0 then none else some (x / y)

/-- Cell-level `(df[sd_col] - df[od_col]).dt.days` (transform.py line 231):
whole-day difference, NaT on either side propagates to a missing result. -/
def shipDiff (sv ov : Option Int) : Option ℚ :=
  sv.bind fun x => ov.bind fun y => some ((x - y : Int) : ℚ)

/-- transform.py lines 215-218: `df["profit_per_unit"] = df["total_profit"] /
df["units_sold"].replace(0, np.nan)`, guarded by the existence of both input
columns. -/
def enrichPpu (df : Df) : Df :=
  match findCol df "total_profit", findCol df "units_sold" with
  | some tp, some us =>
      setCol df "profit_per_unit"
        (ColData.nums (List.zipWith zdiv (colNums tp.data) (colNums us.data)))
  | _, _ => df

/-- transform.py lines 220-223: `revenue_per_unit`, same zero-guard. -/
def enrichRpu (df : Df) : Df :=
  match findCol df "total_revenue", findCol df "units_sold" with
  | some tr, some us =>
      setCol df "revenue_per_unit"
        (ColData.nums (List.zipWith zdiv (colNums tr.data) (colNums us.data)))
  | _, _ => df

/-- transform.py lines 225-228: `profit_margin_ratio`, zero-guard on
`total_revenue`. -/
def enrichPmr (df : Df) : Df :=
  match findCol df "total_revenue", findCol df "total_profit" with
  | some tr, some tp =>
      setCol df "profit_margin_ratio"
        (ColData.nums (List.zipWith zdiv (colNums tp.data) (colNums tr.data)))
  | _, _ => df

/-- transform.py lines 230-231: `shipping_days = (df[sd_col] - df[od_col]).dt.days`,
guarded by both date-column names being set and present. -/
def enrichShip (odn sdn : Option String) (df : Df) : Df :=
  match odn, sdn with
  | some oN, some sN =>
      match findCol df oN, findCol df sN with
      | some oc, some sc =>
          setCol df "shipping_days"
            (ColData.nums (List.zipWith shipDiff (colDates sc.data) (colDates oc.data)))
      | _, _ => df
  | _, _ => df

/-- transform.py line 234: `order_year = df[od_col].dt.year`.  `yearOf`
abstracts the calendar year of a day number. -/
def enrichYear (yearOf : Int → Int) (odn : Option String) (df : Df) : Df :=
  match odn with
  | some oN =>
      match findCol df oN with
      | some oc =>
          setCol df "order_year"
            (ColData.nums ((colDates oc.data).map (Option.map fun z => ((yearOf z : Int) : ℚ))))
      | none => df
  | none => df

/-- transform.py line 235: `order_month = df[od_col].dt.month`. -/
def enrichMonth (monthOf : Int → Int) (odn : Option String) (df : Df) : Df :=
  match odn with
  | some oN =>
      match findCol df oN with
      | some oc =>
          setCol df "order_month"
            (ColData.nums ((colDates oc.data).map (Option.map fun z => ((monthOf z : Int) : ℚ))))
      | none => df
  | none => df

/-- transform.py lines 214-235 (step 4, enrichment): the derived columns in
statement order, each computed and assigned only when its input columns exist
in the frame at that moment. -/
def dfEnrich (yearOf monthOf : Int → Int) (odn sdn : Option String) (df : Df) : Df :=
  enrichMonth monthOf odn
    (enrichYear yearOf odn
      (enrichShip odn sdn
        (enrichPmr (enrichRpu (enrichPpu df)))))

theorem enrichPpu_preserves (df : Df) (m : String) (hm : m ≠ "profit_per_unit") :
    findCol (enrichPpu df) m = findCol df m := by
  unfold enrichPpu
  cases h1 : findCol df "total_profit" with
  | none => rfl
  | some tp =>
    cases h2 : findCol df "units_sold" with
    | none => rfl
    | some us => exact findCol_setCol_ne _ _ _ m hm

theorem enrichRpu_preserves (df : Df) (m : String) (hm : m ≠ "revenue_per_unit") :
    findCol (enrichRpu df) m = findCol df m := by
  unfold enrichRpu
  cases h1 : findCol df "total_revenue" with
  | none => rfl
  | some tr =>
    cases h2 : findCol df "units_sold" with
    | none => rfl
    | some us => exact findCol_setCol_ne _ _ _ m hm

theorem enrichPmr_preserves (df : Df) (m : String) (hm : m ≠ "profit_margin_ratio") :
    findCol (enrichPmr df) m = findCol df m := by
  unfold enrichPmr
  cases h1 : findCol df "total_revenue" with
  | none => rfl
  | some tr =>
    cases h2 : findCol df "total_profit" with
    | none => rfl
    | some tp => exact findCol_setCol_ne _ _ _ m hm

theorem enrichShip_preserves (odn sdn : Option String) (df : Df) (m : String)
    (hm : m ≠ "shipping_days") : findCol (enrichShip odn sdn df) m = findCol df m := by
  unfold enrichShip
  cases odn with
  | none => rfl
  | some oN =>
    cases sdn with
    | none => rfl
    | some sN =>
      dsimp only
      cases h1 : findCol df oN with
      | none => rfl
      | some oc =>
        cases h2 : findCol df sN with
        | none => rfl
        | some sc => exact findCol_setCol_ne _ _ _ m hm

theorem enrichYear_preserves (yearOf : Int → Int) (odn : Option String) (df : Df)
    (m : String) (hm : m ≠ "order_year") :
    findCol (enrichYear yearOf odn df) m = findCol df m := by
  unfold enrichYear
  cases odn with
  | none => rfl
  | some oN =>
    dsimp only
    cases h1 : findCol df oN with
    | none => rfl
    | some oc => exact findCol_setCol_ne _ _ _ m hm

theorem enrichMonth_preserves (monthOf : Int → Int) (odn : Option String) (df : Df)
    (m : String) (hm : m ≠ "order_month") :
    findCol (enrichMonth monthOf odn df) m = findCol df m := by
  unfold enrichMonth
  cases odn with
  | none => rfl
  | some oN =>
    dsimp only
    cases h1 : findCol df oN with
    | none => rfl
    | some oc => exact findCol_setCol_ne _ _ _ m hm

theorem enrichPpu_value (df : Df) (ctp cus : Column) (tp us : List (Option ℚ))
    (htp : findCol df "total_profit" = some ctp) (htpd : ctp.data = ColData.nums tp)
    (hus : findCol df "units_sold" = some cus) (husd : cus.data = ColData.nums us) :
    findCol (enrichPpu df) "profit_per_unit" =
      some ⟨"profit_per_unit", ColData.nums (List.zipWith zdiv tp us)⟩ := by
  unfold enrichPpu
  rw [htp, hus]
  dsimp only
  rw [htpd, husd]
  exact findCol_setCol_self df _ _

theorem enrichRpu_value (df : Df) (ctr cus : Column) (tr us : List (Option ℚ))
    (htr : findCol df "total_revenue" = some ctr) (htrd : ctr.data = ColData.nums tr)
    (hus : findCol df "units_sold" = some cus) (husd : cus.data = ColData.nums us) :
    findCol (enrichRpu df) "revenue_per_unit" =
      some ⟨"revenue_per_unit", ColData.nums (List.zipWith zdiv tr us)⟩ := by
  unfold enrichRpu
  rw [htr, hus]
  dsimp only
  rw [htrd, husd]
  exact findCol_setCol_self df _ _

theorem enrichPmr_value (df : Df) (ctr ctp : Column) (tr tp : List (Option ℚ))
    (htr : findCol df "total_revenue" = some ctr) (htrd : ctr.data = ColData.nums tr)
    (htp : findCol df "total_profit" = some ctp) (htpd : ctp.data = ColData.nums tp) :
    findCol (enrichPmr df) "profit_margin_ratio" =
      some ⟨"profit_margin_ratio", ColData.nums (List.zipWith zdiv tp tr)⟩ := by
  unfold enrichPmr
  rw [htr, htp]
  dsimp only
  rw [htrd, htpd]
  exact findCol_setCol_self df _ _

theorem enrichShip_value (oN sN : String) (df : Df) (oc sc : Column)
    (ods sds : List (Option Int))
    (hoc : findCol df oN = some oc) (hocd : oc.data = ColData.dates ods)
    (hsc : findCol df sN = some sc) (hscd : sc.data = ColData.dates sds) :
    findCol (enrichShip (some oN) (some sN) df) "shipping_days" =
      some ⟨"shipping_days", ColData.nums (List.zipWith shipDiff sds ods)⟩ := by
  unfold enrichShip
  dsimp only
  rw [hoc, hsc]
  dsimp only
  rw [hocd, hscd]
  exact findCol_setCol_self df _ _

theorem zdiv_zero (a : Option ℚ) : zdiv a (some 0) = none := by
  cases a <;> simp [zdiv]

/-- C2: in the enriched record set, a row with `units_sold = 0` has missing
(NaN, modelled `none`) `profit_per_unit` and `revenue_per_unit`, and a row
with `total_revenue = 0` has missing `profit_margin_ratio` (transform.py lines
214-228).  The derived columns are total functions into `Option ℚ`, which has
no infinite element, so no division-by-zero error and no infinity can arise. -/
theorem zero_guard_ratios (yearOf monthOf : Int → Int) (odn sdn : Option String)
    (df : Df) (ctp cus ctr : Column) (tp us tr : List (Option ℚ))
    (htp : findCol df "total_profit" = some ctp) (htpd : ctp.data = ColData.nums tp)
    (hus : findCol df "units_sold" = some cus) (husd : cus.data = ColData.nums us)
    (htr : findCol df "total_revenue" = some ctr) (htrd : ctr.data = ColData.nums tr) :
    findCol (dfEnrich yearOf monthOf odn sdn df) "profit_per_unit" =
      some ⟨"profit_per_unit", ColData.nums (List.zipWith zdiv tp us)⟩ ∧
    findCol (dfEnrich yearOf monthOf odn sdn df) "revenue_per_unit" =
      some ⟨"revenue_per_unit", ColData.nums (List.zipWith zdiv tr us)⟩ ∧
    findCol (dfEnrich yearOf monthOf odn sdn df) "profit_margin_ratio" =
      some ⟨"profit_margin_ratio", ColData.nums (List.zipWith zdiv tp tr)⟩ ∧
    (∀ i, i < tp.length → i < us.length → us.getD i none = some 0 →
      (List.zipWith zdiv tp us).getD i none = none) ∧
    (∀ i, i < tr.length → i < us.length → us.getD i none = some 0 →
      (List.zipWith zdiv tr us).getD i none = none) ∧
    (∀ i, i < tp.length → i < tr.length → tr.getD i none = some 0 →
      (List.zipWith zdiv tp tr).getD i none = none) := by
  have hppu1 : findCol (enrichPpu df) "total_revenue" = some ctr := by
    rw [enrichPpu_preserves df _ (by decide)]; exact htr
  have hppu2 : findCol (enrichPpu df) "units_sold" = some cus := by
    rw [enrichPpu_preserves df _ (by decide)]; exact hus
  have hppu3 : findCol (enrichPpu df) "total_profit" = some ctp := by
    rw [enrichPpu_preserves df _ (by decide)]; exact htp
  have hrpu1 : findCol (enrichRpu (enrichPpu df)) "total_revenue" = some ctr := by
    rw [enrichRpu_preserves _ _ (by decide)]; exact hppu1
  have hrpu3 : findCol (enrichRpu (enrichPpu df)) "total_profit" = some ctp := by
    rw [enrichRpu_preserves _ _ (by decide)]; exact hppu3
  refine ⟨?_, ?_, ?_, ?_, ?_, ?_⟩
  · unfold dfEnrich
    rw [enrichMonth_preserves _ _ _ _ (by decide), enrichYear_preserves _ _ _ _ (by decide),
        enrichShip_preserves _ _ _ _ (by decide), enrichPmr_preserves _ _ (by decide),
        enrichRpu_preserves _ _ (by decide)]
    exact enrichPpu_value df ctp cus tp us htp htpd hus husd
  · unfold dfEnrich
    rw [enrichMonth_preserves _ _ _ _ (by decide), enrichYear_preserves _ _ _ _ (by decide),
        enrichShip_preserves _ _ _ _ (by decide), enrichPmr_preserves _ _ (by decide)]
    exact enrichRpu_value (enrichPpu df) ctr cus tr us hppu1 htrd hppu2 husd
  · unfold dfEnrich
    rw [enrichMonth_preserves _ _ _ _ (by decide), enrichYear_preserves _ _ _ _ (by decide),
        enrichShip_preserves _ _ _ _ (by decide)]
    exact enrichPmr_value (enrichRpu (enrichPpu df)) ctr ctp tr tp hrpu1 htrd hrpu3 htpd
  · intro i hi1 hi2 h0
    rw [getD_zipWith zdiv tp us i none none none hi1 hi2, h0, zdiv_zero]
  · intro i hi1 hi2 h0
    rw [getD_zipWith zdiv tr us i none none none hi1 hi2, h0, zdiv_zero]
  · intro i hi1 hi2 h0
    rw [getD_zipWith zdiv tp tr i none none none hi1 hi2, h0, zdiv_zero]

/-- Witness for C2 on a one-row frame with `units_sold = 0` and
`total_revenue = 0`: all three ratios come out missing, not an error. -/
theorem zero_guard_ratios_witness :
    findCol (dfEnrich id id none none
        [⟨"total_profit", ColData.nums [some 5]⟩,
         ⟨"units_sold", ColData.nums [some 0]⟩,
         ⟨"total_revenue", ColData.nums [some 0]⟩]) "profit_per_unit" =
      some ⟨"profit_per_unit", ColData.nums [none]⟩ ∧
    findCol (dfEnrich id id none none
        [⟨"total_profit", ColData.nums [some 5]⟩,
         ⟨"units_sold", ColData.nums [some 0]⟩,
         ⟨"total_revenue", ColData.nums [some 0]⟩]) "profit_margin_ratio" =
      some ⟨"profit_margin_ratio", ColData.nums [none]⟩ := by
  have h := zero_guard_ratios id id none none
    [⟨"total_profit", ColData.nums [some 5]⟩,
     ⟨"units_sold", ColData.nums [some 0]⟩,
     ⟨"total_revenue", ColData.nums [some 0]⟩]
    ⟨"total_profit", ColData.nums [some 5]⟩
    ⟨"units_sold", ColData.nums [some 0]⟩
    ⟨"total_revenue", ColData.nums [some 0]⟩
    [some 5] [some 0] [some 0] rfl rfl rfl rfl rfl rfl
  exact ⟨by rw [h.1]; rfl, by rw [h.2.2.1]; rfl⟩

/-- C8: `shipping_days` is the whole-day difference ship date minus order date
when both are present; the value is exactly that difference — negative values
are kept, never corrected or clamped — and when either date is missing the
field is missing (`none`), not zero (transform.py lines 230-231). -/
theorem shipping_days_difference (yearOf monthOf : Int → Int) (df : Df)
    (oc sc : Column) (ods sds : List (Option Int))
    (hoc : findCol df "order_date" = some oc) (hocd : oc.data = ColData.dates ods)
    (hsc : findCol df "ship_date" = some sc) (hscd : sc.data = ColData.dates sds) :
    findCol (dfEnrich yearOf monthOf (some "order_date") (some "ship_date") df)
        "shipping_days" =
      some ⟨"shipping_days", ColData.nums (List.zipWith shipDiff sds ods)⟩ ∧
    (∀ i, i < sds.length → i < ods.length →
      (∀ sv ov, sds.getD i none = some sv → ods.getD i none = some ov →
        (List.zipWith shipDiff sds ods).getD i none = some ((sv - ov : Int) : ℚ)) ∧
      ((sds.getD i none = none ∨ ods.getD i none = none) →
        (List.zipWith shipDiff sds ods).getD i none = none)) := by
  constructor
  · unfold dfEnrich
    rw [enrichMonth_preserves _ _ _ _ (by decide), enrichYear_preserves _ _ _ _ (by decide)]
    have h1 : findCol (enrichPmr (enrichRpu (enrichPpu df))) "order_date" = some oc := by
      rw [enrichPmr_preserves _ _ (by decide), enrichRpu_preserves _ _ (by decide),
          enrichPpu_preserves _ _ (by decide)]
      exact hoc
    have h2 : findCol (enrichPmr (enrichRpu (enrichPpu df))) "ship_date" = some sc := by
      rw [enrichPmr_preserves _ _ (by decide), enrichRpu_preserves _ _ (by decide),
          enrichPpu_preserves _ _ (by decide)]
      exact hsc
    exact enrichShip_value _ _ _ oc sc ods sds h1 hocd h2 hscd
  · intro i hi1 hi2
    constructor
    · intro sv ov hsv hov
      rw [getD_zipWith shipDiff sds ods i none none none hi1 hi2, hsv, hov]
      rfl
    · intro hcase
      rw [getD_zipWith shipDiff sds ods i none none none hi1 hi2]
      rcases hcase with h | h
      · rw [h]
        rfl
      · rw [h]
        cases sds.getD i none <;> rfl

/-- Witness for C8: a two-row frame where the first row ships 2 days before it
was ordered (difference -2, kept as is) and the second row has no ship date
(shipping days missing). -/
theorem shipping_days_difference_witness :
    findCol (dfEnrich id id (some "order_date") (some "ship_date")
        [⟨"order_date", ColData.dates [some 10, some 5]⟩,
         ⟨"ship_date", ColData.dates [some 8, none]⟩]) "shipping_days" =
      some ⟨"shipping_days", ColData.nums [some (-2), none]⟩ := by
  have h := shipping_days_difference id id
    [⟨"order_date", ColData.dates [some 10, some 5]⟩,
     ⟨"ship_date", ColData.dates [some 8, none]⟩]
    ⟨"order_date", ColData.dates [some 10, some 5]⟩
    ⟨"ship_date", ColData.dates [some 8, none]⟩
    [some 10, some 5] [some 8, none] (by decide) rfl (by decide) rfl
  rw [h.1]
  decide

/-- C3: missing-value imputation on the merged, deduplicated record set
(transform.py lines 160-166).  Every numeric column is filled with its own
pre-imputation median over the non-missing values, every non-numeric column
with the sentinel "Unknown"; previously present values are unchanged, and
afterwards each previously missing numeric cell equals that median. -/
theorem median_imputation (df : Df) (c : Column) (hc : c ∈ df) :
    ∃ cNew ∈ imputeMissing df, cNew.name = c.name ∧
      (∀ vs, c.data = ColData.nums vs →
        colNums cNew.data =
          vs.map (fun v => v.orElse fun _ => medianQ (vs.filterMap id)) ∧
        ∀ i, i < vs.length →
          (vs.getD i none = none →
            (colNums cNew.data).getD i none = medianQ (vs.filterMap id)) ∧
          (∀ x, vs.getD i none = some x → (colNums cNew.data).getD i none = some x)) ∧
      (∀ vs, c.data = ColData.strs vs →
        colStrs cNew.data = vs.map (fun v => v.orElse fun _ => some "Unknown") ∧
        ∀ i, i < vs.length →
          (vs.getD i none = none → (colStrs cNew.data).getD i none = some "Unknown") ∧
          (∀ x, vs.getD i none = some x → (colStrs cNew.data).getD i none = some x)) := by
  refine ⟨fillnaColumn c, List.mem_map_of_mem fillnaColumn hc, ?_, ?_, ?_⟩
  · unfold fillnaColumn
    cases hd : c.data <;> rfl
  · intro vs hvs
    have hdata : colNums (fillnaColumn c).data =
        vs.map (fun v => v.orElse fun _ => medianQ (vs.filterMap id)) := by
      unfold fillnaColumn
      rw [hvs]
      rfl
    refine ⟨hdata, fun i hi => ⟨fun hnone => ?_, fun x hx => ?_⟩⟩
    · rw [hdata, getD_map _ vs i none none hi, hnone]
      rfl
    · rw [hdata, getD_map _ vs i none none hi, hx]
      rfl
  · intro vs hvs
    have hdata : colStrs (fillnaColumn c).data =
        vs.map (fun v => v.orElse fun _ => some "Unknown") := by
      unfold fillnaColumn
      rw [hvs]
      rfl
    refine ⟨hdata, fun i hi => ⟨fun hnone => ?_, fun x hx => ?_⟩⟩
    · rw [hdata, getD_map _ vs i none none hi, hnone]
      rfl
    · rw [hdata, getD_map _ vs i none none hi, hx]
      rfl

/-- Witness for C3: a numeric column [1, NaN, 4] has its missing cell filled
with the median 5/2 of the non-missing values. -/
theorem median_imputation_witness :
    ∃ cNew ∈ imputeMissing [⟨"units_sold", ColData.nums [some 1, none, some 4]⟩],
      cNew.name = "units_sold" ∧ (colNums cNew.data).getD 1 none = some (5/2) := by
  rcases median_imputation [⟨"units_sold", ColData.nums [some 1, none, some 4]⟩]
      ⟨"units_sold", ColData.nums [some 1, none, some 4]⟩ (by decide)
    with ⟨cN, hmem, hname, hnum, _⟩
  rcases hnum [some 1, none, some 4] rfl with ⟨hdata, hpt⟩
  have h1 := (hpt 1 (by decide)).1 (by decide)
  refine ⟨cN, hmem, by rw [hname], ?_⟩
  rw [h1]
  norm_num [medianQ, sortQ, List.insertionSort, List.orderedInsert]

theorem clipColVals_length (vs : List (Option ℚ)) :
    (clipColVals vs).length = vs.length := by
  unfold clipColVals
  by_cases h : (vs.filterMap id).isEmpty
  · rw [if_pos h]
  · rw [if_neg h]
    exact List.length_map _ _

theorem sorted_getD_mono (s : List ℚ) (hs : List.Sorted (· ≤ ·) s) (i j : Nat)
    (hij : i ≤ j) (hj : j < s.length) : s.getD i 0 ≤ s.getD j 0 := by
  have hi : i < s.length := Nat.lt_of_le_of_lt hij hj
  have hgi : s.getD i 0 = s.get ⟨i, hi⟩ := by
    rw [List.getD_eq_getElem?_getD]
    simp [List.getElem?_eq_getElem hi]
  have hgj : s.getD j 0 = s.get ⟨j, hj⟩ := by
    rw [List.getD_eq_getElem?_getD]
    simp [List.getElem?_eq_getElem hj]
  rw [hgi, hgj]
  rcases Nat.lt_or_ge i j with hlt | hge
  · exact List.pairwise_iff_get.mp hs ⟨i, hi⟩ ⟨j, hj⟩ hlt
  · have heq : i = j := Nat.le_antisymm hij hge
    subst heq
    exact le_refl _

theorem interpAt_eq (s : List ℚ) (h : ℚ) :
    interpAt s h =
      if (Int.floor h).toNat + 1 < s.length then
        s.getD (Int.floor h).toNat 0 +
          (h - (((Int.floor h).toNat : ℚ))) *
            (s.getD ((Int.floor h).toNat + 1) 0 - s.getD (Int.floor h).toNat 0)
      else s.getD (Int.floor h).toNat 0 := rfl

theorem floor_toNat_le (h : ℚ) (h0 : 0 ≤ h) : (((Int.floor h).toNat : ℚ)) ≤ h := by
  have hj : (0 : ℤ) ≤ Int.floor h := Int.floor_nonneg.mpr h0
  have hcast : (((Int.floor h).toNat : ℚ)) = ((Int.floor h : ℤ) : ℚ) := by
    exact_mod_cast congrArg (fun z : ℤ => (z : ℚ)) (Int.toNat_of_nonneg hj)
  rw [hcast]
  exact_mod_cast Int.floor_le h

theorem lt_floor_toNat_add_one (h : ℚ) (h0 : 0 ≤ h) :
    h < (((Int.floor h).toNat : ℚ)) + 1 := by
  have hj : (0 : ℤ) ≤ Int.floor h := Int.floor_nonneg.mpr h0
  have hcast : (((Int.floor h).toNat : ℚ)) = ((Int.floor h : ℤ) : ℚ) := by
    exact_mod_cast congrArg (fun z : ℤ => (z : ℚ)) (Int.toNat_of_nonneg hj)
  rw [hcast]
  exact_mod_cast Int.lt_floor_add_one h

/-- Monotonicity of linear interpolation at increasing positions in a sorted
sample. -/
theorem interpAt_mono (s : List ℚ) (hs : List.Sorted (· ≤ ·) s) (hn : s ≠ [])
    (h1 h2 : ℚ) (h0 : 0 ≤ h1) (h12 : h1 ≤ h2) (hub : h2 ≤ (s.length : ℚ) - 1) :
    interpAt s h1 ≤ interpAt s h2 := by
  have h02 : 0 ≤ h2 := le_trans h0 h12
  have hlen : 0 < s.length := List.length_pos.mpr hn
  have hle1 := floor_toNat_le h1 h0
  have hlt1 := lt_floor_toNat_add_one h1 h0
  have hle2 := floor_toNat_le h2 h02
  have hi12 : (Int.floor h1).toNat ≤ (Int.floor h2).toNat :=
    Int.toNat_le_toNat (Int.floor_le_floor h12)
  have hi2n : (Int.floor h2).toNat < s.length := by
    have ha : (((Int.floor h2).toNat : ℚ)) < (s.length : ℚ) := by linarith
    exact_mod_cast ha
  rw [interpAt_eq, interpAt_eq]
  rcases Nat.lt_or_ge (Int.floor h1).toNat (Int.floor h2).toNat with hlt | hge
  · have hi11n : (Int.floor h1).toNat + 1 < s.length :=
      Nat.lt_of_le_of_lt (Nat.succ_le_of_lt hlt) hi2n
    rw [if_pos hi11n]
    have hd1 : s.getD (Int.floor h1).toNat 0 ≤ s.getD ((Int.floor h1).toNat + 1) 0 :=
      sorted_getD_mono s hs _ _ (Nat.le_succ _) hi11n
    have hstep1 : s.getD (Int.floor h1).toNat 0 +
        (h1 - (((Int.floor h1).toNat : ℚ))) *
          (s.getD ((Int.floor h1).toNat + 1) 0 - s.getD (Int.floor h1).toNat 0) ≤
        s.getD ((Int.floor h1).toNat + 1) 0 := by
      nlinarith [hd1, hle1, hlt1]
    have hstep2 : s.getD ((Int.floor h1).toNat + 1) 0 ≤ s.getD (Int.floor h2).toNat 0 :=
      sorted_getD_mono s hs _ _ (Nat.succ_le_of_lt hlt) hi2n
    by_cases hcond : (Int.floor h2).toNat + 1 < s.length
    · rw [if_pos hcond]
      have hd2 : s.getD (Int.floor h2).toNat 0 ≤ s.getD ((Int.floor h2).toNat + 1) 0 :=
        sorted_getD_mono s hs _ _ (Nat.le_succ _) hcond
      nlinarith [hd2, hle2, hstep1, hstep2]
    · rw [if_neg hcond]
      linarith
  · have heq : (Int.floor h1).toNat = (Int.floor h2).toNat := Nat.le_antisymm hi12 hge
    rw [heq]
    by_cases hcond : (Int.floor h2).toNat + 1 < s.length
    · rw [if_pos hcond, if_pos hcond]
      have hd : s.getD (Int.floor h2).toNat 0 ≤ s.getD ((Int.floor h2).toNat + 1) 0 :=
        sorted_getD_mono s hs _ _ (Nat.le_succ _) hcond
      have hg12 : h1 - (((Int.floor h2).toNat : ℚ)) ≤ h2 - (((Int.floor h2).toNat : ℚ)) := by
        linarith
      nlinarith [hd, hg12]
    · rw [if_neg hcond, if_neg hcond]

/-- pandas quantiles are monotone in the probability: the interpolated sample
position increases with p on the sorted sample. -/
theorem quantile_mono (xs : List ℚ) (hne : xs ≠ []) (p q : ℚ)
    (h0 : 0 ≤ p) (hpq : p ≤ q) (hq : q ≤ 1) : quantile xs p ≤ quantile xs q := by
  unfold quantile
  have hlen : (sortQ xs).length = xs.length := List.length_insertionSort _ xs
  have hsn : sortQ xs ≠ [] := by
    intro hc
    apply hne
    have hl := congrArg List.length hc
    rw [hlen] at hl
    simpa using hl
  have hs : List.Sorted (· ≤ ·) (sortQ xs) := List.sorted_insertionSort _ xs
  have hpos : 0 < (sortQ xs).length := List.length_pos.mpr hsn
  have hge : (1 : ℚ) ≤ ((sortQ xs).length : ℚ) := by exact_mod_cast hpos
  apply interpAt_mono _ hs hsn
  · exact mul_nonneg h0 (by linarith)
  · exact mul_le_mul_of_nonneg_right hpq (by linarith)
  · nlinarith

theorem quantile_q1_le_q3 (xs : List ℚ) (hne : xs ≠ []) :
    quantile xs (1/4) ≤ quantile xs (3/4) :=
  quantile_mono xs hne (1/4) (3/4) (by norm_num) (by norm_num) (by norm_num)

/-- Every non-missing value of the clipped column lies inside the IQR fence
computed from the pre-clip values. -/
theorem clipColVals_mem_bounds (vs : List (Option ℚ)) (hne : vs.filterMap id ≠ [])
    (v : ℚ) (hv : some v ∈ clipColVals vs) :
    quantile (vs.filterMap id) (1/4) -
        3/2 * (quantile (vs.filterMap id) (3/4) - quantile (vs.filterMap id) (1/4)) ≤ v ∧
    v ≤ quantile (vs.filterMap id) (3/4) +
        3/2 * (quantile (vs.filterMap id) (3/4) - quantile (vs.filterMap id) (1/4)) := by
  have hq : quantile (vs.filterMap id) (1/4) ≤ quantile (vs.filterMap id) (3/4) :=
    quantile_q1_le_q3 _ hne
  unfold clipColVals at hv
  rw [if_neg (by simpa [List.isEmpty_iff] using hne)] at hv
  rcases List.mem_map.mp hv with ⟨x, _, hmap⟩
  cases x with
  | none => simp at hmap
  | some w =>
    rw [Option.map_some'] at hmap
    have hval := Option.some.inj hmap
    constructor
    · rw [← hval]
      exact le_min (le_max_right _ _) (by linarith)
    · rw [← hval]
      exact min_le_right _ _

theorem clipIfListed_name (cols : List String) (col : Column) :
    (clipIfListed cols col).name = col.name := by
  unfold clipIfListed
  by_cases h : col.name ∈ cols
  · rw [if_pos h]
    cases col.data <;> rfl
  · rw [if_neg h]

theorem clipIfListed_len (cols : List String) (col : Column) :
    (clipIfListed cols col).data.len = col.data.len := by
  unfold clipIfListed
  by_cases h : col.name ∈ cols
  · rw [if_pos h]
    cases hd : col.data with
    | nums vs => simp [ColData.len, clipColVals_length]
    | strs vs => rw [hd]
    | dates vs => rw [hd]
  · rw [if_neg h]

/-- With distinct requested names, the `handle_outliers_iqr` fold coincides
with one independent per-column map. -/
theorem handle_outliers_eq_map (df : Df) (cols : List String) (hnd : cols.Nodup) :
    handle_outliers_iqr df cols = df.map (clipIfListed cols) := by
  induction cols generalizing df with
  | nil =>
    unfold handle_outliers_iqr
    rw [List.foldl_nil]
    rw [show df.map (clipIfListed []) = df.map id from
      List.map_congr_left fun c _ => by
        unfold clipIfListed
        rw [if_neg (List.not_mem_nil c.name)]
        rfl]
    rw [List.map_id]
  | cons c cs ih =>
    unfold handle_outliers_iqr
    rw [List.foldl_cons]
    have hrest : List.foldl (fun d c => d.map (clipIfNamed c)) (df.map (clipIfNamed c)) cs =
        handle_outliers_iqr (df.map (clipIfNamed c)) cs := rfl
    rw [hrest, ih (df.map (clipIfNamed c)) (List.Nodup.of_cons hnd)]
    rw [List.map_map]
    apply List.map_congr_left
    intro col _
    have hcmem : c ∉ cs := (List.nodup_cons.mp hnd).1
    show clipIfListed cs (clipIfNamed c col) = clipIfListed (c :: cs) col
    by_cases hc : col.name = c
    · unfold clipIfNamed
      rw [if_pos hc]
      cases hd : col.data with
      | nums vs =>
        unfold clipIfListed
        rw [if_neg (by simpa using fun hmm => hcmem (hc ▸ hmm)),
            if_pos (by rw [hc]; exact List.mem_cons_self c cs), hd]
      | strs vs =>
        unfold clipIfListed
        rw [if_neg (fun hmm => hcmem (hc ▸ hmm)),
            if_pos (by rw [hc]; exact List.mem_cons_self c cs), hd]
      | dates vs =>
        unfold clipIfListed
        rw [if_neg (fun hmm => hcmem (hc ▸ hmm)),
            if_pos (by rw [hc]; exact List.mem_cons_self c cs), hd]
    · unfold clipIfNamed
      rw [if_neg hc]
      unfold clipIfListed
      by_cases hmem : col.name ∈ cs
      · rw [if_pos hmem, if_pos (List.mem_cons_of_mem c hmem)]
      · rw [if_neg hmem, if_neg (by
          intro hmm
          rcases List.mem_cons.mp hmm with h | h
          · exact hc h
          · exact hmem h)]

/-- C4: outlier clipping (`handle_outliers_iqr`, transform.py lines 37-58,
invoked on the configured numeric columns at lines 183-186).  For distinct
requested names the step is an independent per-column map; columns that are
absent or non-numeric are skipped unchanged without error; no rows are removed
(every column keeps its name and its length); and every non-missing value of a
clipped numeric column lies in [Q1 - 1.5 IQR, Q3 + 1.5 IQR], with Q1, Q3 and
IQR = Q3 - Q1 computed over the column's values before clipping. -/
theorem outlier_clipping_bounds (df : Df) (cols : List String) (hnd : cols.Nodup) :
    handle_outliers_iqr df cols = df.map (clipIfListed cols) ∧
    (∀ col : Column, col.name ∉ cols → clipIfListed cols col = col) ∧
    (∀ col : Column, ∀ vs, col.data = ColData.strs vs → clipIfListed cols col = col) ∧
    (∀ col : Column, ∀ vs, col.data = ColData.dates vs → clipIfListed cols col = col) ∧
    (∀ col : Column, (clipIfListed cols col).name = col.name ∧
      (clipIfListed cols col).data.len = col.data.len) ∧
    (∀ col : Column, ∀ vs : List (Option ℚ), col.name ∈ cols →
      col.data = ColData.nums vs → vs.filterMap id ≠ [] →
      ∀ v : ℚ, some v ∈ colNums (clipIfListed cols col).data →
        quantile (vs.filterMap id) (1/4) -
            3/2 * (quantile (vs.filterMap id) (3/4) - quantile (vs.filterMap id) (1/4)) ≤ v ∧
        v ≤ quantile (vs.filterMap id) (3/4) +
            3/2 * (quantile (vs.filterMap id) (3/4) - quantile (vs.filterMap id) (1/4))) := by
  refine ⟨handle_outliers_eq_map df cols hnd, ?_, ?_, ?_, ?_, ?_⟩
  · intro col h
    unfold clipIfListed
    rw [if_neg h]
  · intro col vs hd
    unfold clipIfListed
    by_cases hm : col.name ∈ cols
    · rw [if_pos hm, hd]
    · rw [if_neg hm]
  · intro col vs hd
    unfold clipIfListed
    by_cases hm : col.name ∈ cols
    · rw [if_pos hm, hd]
    · rw [if_neg hm]
  · exact fun col => ⟨clipIfListed_name cols col, clipIfListed_len cols col⟩
  · intro col vs hmem hd hne v hv
    have hvals : clipIfListed cols col = ⟨col.name, ColData.nums (clipColVals vs)⟩ := by
      unfold clipIfListed
      rw [if_pos hmem, hd]
    rw [hvals] at hv
    exact clipColVals_mem_bounds vs hne v hv

/-- Witness for C4 on the concrete column [0, 1] requested as "units_sold":
the surviving value 0 respects the pre-clip IQR fence. -/
theorem outlier_clipping_bounds_witness :
    quantile (List.filterMap id [some (0:ℚ), some 1]) (1/4) -
        3/2 * (quantile (List.filterMap id [some (0:ℚ), some 1]) (3/4) -
          quantile (List.filterMap id [some (0:ℚ), some 1]) (1/4)) ≤ 0 ∧
    (0 : ℚ) ≤ quantile (List.filterMap id [some (0:ℚ), some 1]) (3/4) +
        3/2 * (quantile (List.filterMap id [some (0:ℚ), some 1]) (3/4) -
          quantile (List.filterMap id [some (0:ℚ), some 1]) (1/4)) := by
  apply (outlier_clipping_bounds [⟨"units_sold", ColData.nums [some 0, some 1]⟩]
      ["units_sold"] (by decide)).2.2.2.2.2
    ⟨"units_sold", ColData.nums [some 0, some 1]⟩ [some 0, some 1]
    (by decide) rfl (by decide)
  norm_num [clipIfListed, clipColVals, colNums, quantile, sortQ, interpAt,
    List.insertionSort, List.orderedInsert]

theorem configIdColStd_eq : configIdColStd = "order_id" := by decide

/-- The standardized configured primary-key name equals the fallback name, so
the name chosen at transform.py lines 153-156 is always `"order_id"`. -/
theorem transformPkCol_eq (df : Df) : transformPkCol df = "order_id" := by
  unfold transformPkCol
  rw [configIdColStd_eq]
  by_cases h : hasCol df "order_id"
  · rw [if_pos h]
  · rw [if_neg h]

/-- C6 counterexample: on a merged frame with neither the configured nor the
fallback primary-key column, the transform's deduplication call
`drop_duplicates(subset=[pk_col])` raises a KeyError — it is not skipped. -/
theorem dedup_missing_pk_counterexample :
    dedup_by_pk [⟨"region", ColData.strs [some "Europe"]⟩] =
      Except.error "KeyError: order_id" := rfl

/-- C6 amended: when neither the configured primary-key column (standardized,
which coincides with the fallback name `"order_id"`) nor the fallback column
exists, `transform_sales` raises a KeyError from
`drop_duplicates(subset=[pk_col])` (transform.py lines 152-158); when the
column exists, deduplication proceeds normally. -/
theorem dedup_missing_pk_raises (df : Df) :
    (hasCol df "order_id" = false →
      dedup_by_pk df = Except.error "KeyError: order_id") ∧
    (hasCol df "order_id" = true → ∃ d, dedup_by_pk df = Except.ok d) := by
  constructor
  · intro h
    unfold dedup_by_pk
    rw [transformPkCol_eq]
    have hnone : findCol df "order_id" = none := by
      unfold hasCol at h
      cases hf : findCol df "order_id" with
      | none => rfl
      | some c => rw [hf] at h; simp at h
    rw [hnone]
    rfl
  · intro h
    unfold dedup_by_pk
    rw [transformPkCol_eq]
    unfold hasCol at h
    cases hf : findCol df "order_id" with
    | none => rw [hf] at h; simp at h
    | some c => exact ⟨_, rfl⟩

/-- Witness for C6 (amended): a frame without the key column errors, a frame
with it deduplicates successfully. -/
theorem dedup_missing_pk_raises_witness :
    (hasCol [(⟨"country", ColData.strs [some "France"]⟩ : Column)] "order_id" = false ∧
     dedup_by_pk [⟨"country", ColData.strs [some "France"]⟩] =
       Except.error "KeyError: order_id") ∧
    (hasCol [(⟨"order_id", ColData.nums [some 1, some 1]⟩ : Column)] "order_id" = true ∧
     ∃ d, dedup_by_pk [⟨"order_id", ColData.nums [some 1, some 1]⟩] = Except.ok d) :=
  ⟨⟨by decide, (dedup_missing_pk_raises _).1 (by decide)⟩,
   ⟨by decide, (dedup_missing_pk_raises _).2 (by decide)⟩⟩

/-- Descriptive statistics of one numeric column (`DataFrame.describe`):
count, mean, variance, min, quartiles, max over the non-missing values.
pandas reports the sample standard deviation (ddof = 1); its square — the
variance — is carried instead because the square root of a rational is not
rational, and no claim under study depends on the reported spread value. -/
structure DescStats where
  count : Nat
  mean : Option ℚ
  variance : Option ℚ
  vmin : Option ℚ
  q25 : Option ℚ
  q50 : Option ℚ
  q75 : Option ℚ
  vmax : Option ℚ
deriving DecidableEq

/-- `describe` of a numeric sample (its non-missing values). -/
def describeNums (xs : List ℚ) : DescStats :=
  if xs.length = 0 then ⟨0, none, none, none, none, none, none, none⟩
  else
    ⟨xs.length, some (xs.sum / (xs.length : ℚ)),
     if xs.length = 1 then none
     else some ((xs.map fun x => (x - xs.sum / (xs.length : ℚ)) ^ 2).sum /
       ((xs.length : ℚ) - 1)),
     some (quantile xs 0), some (quantile xs (1/4)), some (quantile xs (1/2)),
     some (quantile xs (3/4)), some (quantile xs 1)⟩

/-- `describe` of one column.  Object/datetime columns never reach the
describe step of `run_data_quality_checks` because the range check raises on
them first; only the count field is kept for totality. -/
def describeCol (c : Column) : DescStats :=
  match c.data with
  | ColData.nums vs => describeNums (vs.filterMap id)
  | d => ⟨d.cells.countP Option.isSome, none, none, none, none, none, none, none⟩

/-- A value of the quality report (transform.py `run_data_quality_checks`). -/
inductive RVal : Type
  | int (z : Int)
  | natDict (entries : List (String × Nat))
  | strDict (entries : List (String × String))
  | statsDict (entries : List (String × DescStats))
deriving DecidableEq

/-- The dtype string of a column (`df.dtypes.astype(str)`). -/
def dtypeName : ColData → String
  | ColData.nums _ => "float64"
  | ColData.strs _ => "object"
  | ColData.dates _ => "datetime64[ns]"

/-- `series.duplicated().sum()`: how many entries equal some earlier entry
(pandas counts NaN as duplicating an earlier NaN). -/
def dupCount {κ : Type} [DecidableEq κ] : List κ → List κ → Nat
  | _, [] => 0
  | seen, k :: ks => (if k ∈ seen then 1 else 0) + dupCount (k :: seen) ks

/-- `series.isnull().sum()`. -/
def nullCount (d : ColData) : Nat := d.cells.countP Option.isNone

/-- Check 3 of `run_data_quality_checks` (transform.py lines 107-112): for each
requested numeric column that is present, count the rows with a negative
value (`df[df[col] < 0]`; NaN compares False).  A present non-numeric column
makes the elementwise comparison with 0 raise a TypeError; a missing column is
skipped. -/
def rangeNegEntries (df : Df) : List String → Except String (List (String × Nat))
  | [] => Except.ok []
  | c :: cs =>
      match findCol df c with
      | some col =>
          match col.data with
          | ColData.nums vs =>
              (rangeNegEntries df cs).map
                (fun rest => (c, vs.countP fun v =>
                  match v with
                  | some q => decide (q < 0)
                  | none => false) :: rest)
          | _ => Except.error ("TypeError: invalid comparison for column " ++ c)
      | none => rangeNegEntries df cs

/-- transform.py `run_data_quality_checks` (lines 84-127).  The six checks in
order; checks 1 and 5 are guarded by the presence of the primary-key column;
check 3 raises on a present non-numeric requested column; check 6,
`df[numeric_cols].describe()`, raises a ValueError on an empty column list and
a KeyError when any requested numeric column is absent from the frame.  A
raise anywhere aborts the whole run (`Except.error`). -/
def run_data_quality_checks (df : Df) (pk : String) (numericCols : List String) :
    Except String (List (String × RVal)) :=
  match rangeNegEntries df numericCols with
  | Except.error e => Except.error e
  | Except.ok r3 =>
      if numericCols.isEmpty then
        Except.error "ValueError: Cannot describe a DataFrame without columns"
      else if (numericCols.filter fun c => !(hasCol df c)).isEmpty then
        Except.ok (
          (match findCol df pk with
           | some c => [("uniqueness_pk_duplicates", RVal.int (Int.ofNat (dupCount [] c.data.cells)))]
           | none => []) ++
          [("null_counts_per_column",
            RVal.natDict (df.map fun c => (c.name, nullCount c.data)))] ++
          [("range_negative_values", RVal.natDict r3)] ++
          [("dtypes", RVal.strDict (df.map fun c => (c.name, dtypeName c.data)))] ++
          (match findCol df pk with
           | some c => [("referential_integrity_pk_null", RVal.int (Int.ofNat (nullCount c.data)))]
           | none => []) ++
          [("distribution_numeric_describe", RVal.statsDict
            (numericCols.map fun nc =>
              (nc, match findCol df nc with
                   | some c => describeCol c
                   | none => ⟨0, none, none, none, none, none, none, none⟩)))])
      else
        Except.error ("KeyError: " ++
          String.intercalate ", " (numericCols.filter fun c => !(hasCol df c)))

theorem rangeNegEntries_ok (df : Df) (numericCols : List String)
    (hty : ∀ nc ∈ numericCols, ∀ c, findCol df nc = some c →
      ∃ vs, c.data = ColData.nums vs) :
    ∃ r3, rangeNegEntries df numericCols = Except.ok r3 := by
  induction numericCols with
  | nil => exact ⟨[], rfl⟩
  | cons c cs ih =>
    rcases ih (fun nc hnc col hcol => hty nc (List.mem_cons_of_mem c hnc) col hcol)
      with ⟨r3, hr3⟩
    unfold rangeNegEntries
    cases hf : findCol df c with
    | none => exact ⟨r3, hr3⟩
    | some col =>
      rcases hty c (List.mem_cons_self c cs) col hf with ⟨vs, hvs⟩
      dsimp only
      rw [hvs, hr3]
      exact ⟨_, rfl⟩

/-- Key list of a successful check run with the primary-key column present. -/
theorem report_keys_full (df : Df) (pk : String) (numericCols : List String)
    (hnonempty : numericCols ≠ [])
    (hty : ∀ nc ∈ numericCols, ∀ c, findCol df nc = some c →
      ∃ vs, c.data = ColData.nums vs)
    (hall : ∀ nc ∈ numericCols, hasCol df nc = true)
    (cpk : Column) (hpk : findCol df pk = some cpk) :
    ∃ rep, run_data_quality_checks df pk numericCols = Except.ok rep ∧
      rep.map Prod.fst =
        ["uniqueness_pk_duplicates", "null_counts_per_column",
         "range_negative_values", "dtypes", "referential_integrity_pk_null",
         "distribution_numeric_describe"] := by
  rcases rangeNegEntries_ok df numericCols hty with ⟨r3, hr3⟩
  have hfilter : (numericCols.filter fun c => !(hasCol df c)) = [] := by
    rw [List.filter_eq_nil_iff]
    intro c hc
    rw [hall c hc]
    simp
  unfold run_data_quality_checks
  rw [hr3]
  dsimp only
  rw [if_neg (by simp [List.isEmpty_iff, hnonempty]), hfilter, hpk]
  refine ⟨_, rfl, ?_⟩
  simp

/-- C10: the Quality Checker guards only the primary-key column — with the
primary key absent, checks 1 and 5 are skipped and the run still succeeds —
but it does not guard the numeric-columns list: whenever some requested
numeric column is absent from the frame (and the present ones are numeric, so
that the earlier range check passes), `df[numeric_cols].describe()` raises a
KeyError and the whole check run fails (transform.py lines 84-127). -/
theorem quality_checks_numeric_guard (df : Df) (pk : String) (numericCols : List String)
    (hty : ∀ nc ∈ numericCols, ∀ c, findCol df nc = some c →
      ∃ vs, c.data = ColData.nums vs) :
    ((∃ nc ∈ numericCols, hasCol df nc = false) →
      run_data_quality_checks df pk numericCols =
        Except.error ("KeyError: " ++
          String.intercalate ", " (numericCols.filter fun c => !(hasCol df c)))) ∧
    (hasCol df pk = false → numericCols ≠ [] →
      (∀ nc ∈ numericCols, hasCol df nc = true) →
      ∃ rep, run_data_quality_checks df pk numericCols = Except.ok rep ∧
        rep.map Prod.fst =
          ["null_counts_per_column", "range_negative_values", "dtypes",
           "distribution_numeric_describe"]) := by
  constructor
  · rintro ⟨nc, hnc, habs⟩
    rcases rangeNegEntries_ok df numericCols hty with ⟨r3, hr3⟩
    have hne : (numericCols.filter fun c => !(hasCol df c)).isEmpty = false := by
      rw [List.isEmpty_eq_false]
      intro hnil
      have hmm := List.filter_eq_nil_iff.mp hnil nc hnc
      rw [habs] at hmm
      simp at hmm
    have hne0 : numericCols ≠ [] := by
      intro hnil
      rw [hnil] at hnc
      exact List.not_mem_nil nc hnc
    unfold run_data_quality_checks
    rw [hr3]
    dsimp only
    rw [if_neg (by simp [List.isEmpty_iff, hne0]), if_neg (by simp [hne])]
  · intro hpk hnonempty hall
    rcases rangeNegEntries_ok df numericCols hty with ⟨r3, hr3⟩
    have hfilter : (numericCols.filter fun c => !(hasCol df c)) = [] := by
      rw [List.filter_eq_nil_iff]
      intro c hc
      rw [hall c hc]
      simp
    have hnone : findCol df pk = none := by
      unfold hasCol at hpk
      cases hf : findCol df pk with
      | none => rfl
      | some c => rw [hf] at hpk; simp at hpk
    unfold run_data_quality_checks
    rw [hr3]
    dsimp only
    rw [if_neg (by simp [List.isEmpty_iff, hnonempty]), hfilter, hnone]
    refine ⟨_, rfl, ?_⟩
    simp

/-- Witness for C10: with `order_id` absent and the single numeric column
present, the run succeeds with the two primary-key checks skipped; a run
requesting the absent column `"units_sold"` fails with a KeyError. -/
theorem quality_checks_numeric_guard_witness :
    (∃ rep, run_data_quality_checks [⟨"total_profit", ColData.nums [some 3]⟩]
        "order_id" ["total_profit"] = Except.ok rep ∧
      rep.map Prod.fst =
        ["null_counts_per_column", "range_negative_values", "dtypes",
         "distribution_numeric_describe"]) ∧
    run_data_quality_checks [⟨"total_profit", ColData.nums [some 3]⟩]
        "order_id" ["units_sold"] = Except.error "KeyError: units_sold" := by
  constructor
  · apply (quality_checks_numeric_guard [⟨"total_profit", ColData.nums [some 3]⟩]
        "order_id" ["total_profit"] ?ty1).2 (by decide) (by decide) ?all1
    case ty1 =>
      intro nc hnc c hc
      have hnc' : nc = "total_profit" := List.mem_singleton.mp hnc
      subst hnc'
      have : findCol [(⟨"total_profit", ColData.nums [some 3]⟩ : Column)] "total_profit" =
          some ⟨"total_profit", ColData.nums [some 3]⟩ := by decide
      rw [this] at hc
      cases hc
      exact ⟨[some 3], rfl⟩
    case all1 =>
      intro nc hnc
      have hnc' : nc = "total_profit" := List.mem_singleton.mp hnc
      subst hnc'
      decide
  · have h := (quality_checks_numeric_guard [⟨"total_profit", ColData.nums [some 3]⟩]
        "order_id" ["units_sold"] ?ty2).1 ⟨"units_sold", List.mem_singleton_self _, by decide⟩
    case ty2 =>
      intro nc hnc c hc
      have hnc' : nc = "units_sold" := List.mem_singleton.mp hnc
      subst hnc'
      have : findCol [(⟨"total_profit", ColData.nums [some 3]⟩ : Column)] "units_sold" =
          none := by decide
      rw [this] at hc
      cases hc
    rw [h]
    rfl

/-- Row-wise triple of three columns of equal length. -/
def zip3 {α β γ : Type} : List α → List β → List γ → List (α × β × γ)
  | a :: as, b :: bs, c :: cs => (a, b, c) :: zip3 as bs cs
  | _, _, _ => []

theorem mem_zip3 {α β γ : Type} {t : α × β × γ} :
    ∀ (as : List α) (bs : List β) (cs : List γ),
      t ∈ zip3 as bs cs → t.1 ∈ as ∧ t.2.1 ∈ bs ∧ t.2.2 ∈ cs := by
  intro as
  induction as with
  | nil => intro bs cs h; simp [zip3] at h
  | cons a as ih =>
    intro bs cs h
    cases bs with
    | nil => simp [zip3] at h
    | cons b bs =>
      cases cs with
      | nil => simp [zip3] at h
      | cons c cs =>
        rw [zip3] at h
        rcases List.mem_cons.mp h with h | h
        · subst h
          exact ⟨List.mem_cons_self _ _, List.mem_cons_self _ _, List.mem_cons_self _ _⟩
        · rcases ih bs cs h with ⟨h1, h2, h3⟩
          exact ⟨List.mem_cons_of_mem _ h1, List.mem_cons_of_mem _ h2,
            List.mem_cons_of_mem _ h3⟩

theorem drop_duplicates_id_nodup {α : Type} [DecidableEq α] (l : List α) :
    (drop_duplicates id l).Nodup := by
  have h := (dedupFirstAux_keys id [] l).1
  rwa [List.map_id] at h

theorem drop_duplicates_id_mem {α : Type} [DecidableEq α] (l : List α) (a : α) :
    a ∈ drop_duplicates id l ↔ a ∈ l := by
  constructor
  · intro h
    exact (dedupFirstAux_sublist id [] l).subset h
  · intro h
    rcases dedupFirstAux_covers id [] l a (by simpa using h) (List.not_mem_nil a)
      with ⟨r, hr, hra⟩
    exact hra ▸ hr

/-- `sort_values("order_date")` key order: NaT sorts last. -/
def dateKeyLe (a b : Option Int) : Bool :=
  match a, b with
  | some x, some y => decide (x ≤ y)
  | some _, none => true
  | none, some _ => false
  | none, none => true

/-- Row order used by `sort_values("order_date")` on the date-dimension
triples. -/
def dimDateSortLe (a b : Option Int × Option ℚ × Option ℚ) : Prop :=
  dateKeyLe a.1 b.1 = true

instance : DecidableRel dimDateSortLe := fun _ _ => instDecidableEqBool _ _

/-- The four dimension value sets of load.py `load_dimensions` (lines
161-202): each is the `drop_duplicates()` of the selected natural-key columns
(the date dimension also selects the year/month attributes and is sorted by
order date), and is built only when all its columns are present
(`issubset`).  The surrogate ids assigned by the database on insertion and the
read-back of the stored table are outside the model; the extracted value sets
are exactly what `to_sql` appends to the freshly reset store. -/
def load_dimensions (df : Df) : (Option (List (Option Int × Option ℚ × Option ℚ))) ×
    (Option (List (Option String × Option String))) ×
    (Option (List (Option String))) × (Option (List (Option String))) :=
  (match findCol df "order_date", findCol df "order_year", findCol df "order_month" with
   | some od, some oy, some om =>
       some (List.insertionSort dimDateSortLe
         (drop_duplicates id (zip3 (colDates od.data) (colNums oy.data) (colNums om.data))))
   | _, _, _ => none,
   match findCol df "region", findCol df "country" with
   | some rg, some ct => some (drop_duplicates id ((colStrs rg.data).zip (colStrs ct.data)))
   | _, _ => none,
   match findCol df "item_type" with
   | some it => some (drop_duplicates id (colStrs it.data))
   | none => none,
   match findCol df "sales_channel" with
   | some sc => some (drop_duplicates id (colStrs sc.data))
   | none => none)

/-- C7: on a transformed record set — order dates all present with
`order_year`/`order_month` functionally determined by `order_date`, and the
four dimension string columns non-null (the transform's `astype(str)` trim at
lines 146-149 guarantees this) — `load_dimensions` extracts for each dimension
exactly the distinct natural-key tuples occurring in the data, keyed on
`order_date` alone for the date dimension, on (region, country) jointly, on
`item_type`, and on `sales_channel`; no null-keyed row is persisted and no
key tuple appears twice. -/
theorem load_dimensions_distinct (df : Df)
    (od oy om rg ct it sc : Column)
    (ods : List (Option Int)) (oys oms : List (Option ℚ))
    (rgs cts its scs : List (Option String))
    (hod : findCol df "order_date" = some od) (hodd : od.data = ColData.dates ods)
    (hoy : findCol df "order_year" = some oy) (hoyd : oy.data = ColData.nums oys)
    (hom : findCol df "order_month" = some om) (homd : om.data = ColData.nums oms)
    (hrg : findCol df "region" = some rg) (hrgd : rg.data = ColData.strs rgs)
    (hct : findCol df "country" = some ct) (hctd : ct.data = ColData.strs cts)
    (hit : findCol df "item_type" = some it) (hitd : it.data = ColData.strs its)
    (hsc : findCol df "sales_channel" = some sc) (hscd : sc.data = ColData.strs scs)
    (hodsome : ∀ v ∈ ods, v.isSome = true)
    (hdep : ∀ t1 ∈ zip3 ods oys oms, ∀ t2 ∈ zip3 ods oys oms, t1.1 = t2.1 → t1 = t2)
    (hrgsome : ∀ v ∈ rgs, v.isSome = true) (hctsome : ∀ v ∈ cts, v.isSome = true)
    (hitsome : ∀ v ∈ its, v.isSome = true) (hscsome : ∀ v ∈ scs, v.isSome = true) :
    ∃ dd dc di dch,
      (load_dimensions df).1 = some dd ∧
      (load_dimensions df).2.1 = some dc ∧
      (load_dimensions df).2.2.1 = some di ∧
      (load_dimensions df).2.2.2 = some dch ∧
      (dd.map fun t => t.1).Nodup ∧
      (∀ t ∈ dd, t.1.isSome = true) ∧
      (∀ t, t ∈ dd ↔ t ∈ zip3 ods oys oms) ∧
      dc.Nodup ∧
      (∀ p ∈ dc, p.1.isSome = true ∧ p.2.isSome = true) ∧
      (∀ p, p ∈ dc ↔ p ∈ rgs.zip cts) ∧
      di.Nodup ∧ (∀ v ∈ di, v.isSome = true) ∧ (∀ v, v ∈ di ↔ v ∈ its) ∧
      dch.Nodup ∧ (∀ v ∈ dch, v.isSome = true) ∧ (∀ v, v ∈ dch ↔ v ∈ scs) := by
  have hperm : List.Perm
      (List.insertionSort dimDateSortLe (drop_duplicates id (zip3 ods oys oms)))
      (drop_duplicates id (zip3 ods oys oms)) := List.perm_insertionSort _ _
  refine ⟨List.insertionSort dimDateSortLe (drop_duplicates id (zip3 ods oys oms)),
    drop_duplicates id (rgs.zip cts), drop_duplicates id its, drop_duplicates id scs,
    ?_, ?_, ?_, ?_, ?_, ?_, ?_, ?_, ?_, ?_, ?_, ?_, ?_, ?_, ?_, ?_⟩
  · unfold load_dimensions
    rw [hod, hoy, hom]
    dsimp only
    rw [hodd, hoyd, homd]
    rfl
  · unfold load_dimensions
    rw [hrg, hct]
    dsimp only
    rw [hrgd, hctd]
    rfl
  · unfold load_dimensions
    rw [hit]
    dsimp only
    rw [hitd]
    rfl
  · unfold load_dimensions
    rw [hsc]
    dsimp only
    rw [hscd]
    rfl
  · have hnd : (drop_duplicates id (zip3 ods oys oms)).Nodup :=
      drop_duplicates_id_nodup _
    have hndsorted : (List.insertionSort dimDateSortLe
        (drop_duplicates id (zip3 ods oys oms))).Nodup := hperm.nodup_iff.mpr hnd
    apply List.Nodup.map_on ?_ hndsorted
    intro t1 ht1 t2 ht2 h12
    have ht1z : t1 ∈ zip3 ods oys oms :=
      (drop_duplicates_id_mem _ _).mp (hperm.subset ht1)
    have ht2z : t2 ∈ zip3 ods oys oms :=
      (drop_duplicates_id_mem _ _).mp (hperm.subset ht2)
    exact hdep t1 ht1z t2 ht2z h12
  · intro t ht
    have htz : t ∈ zip3 ods oys oms :=
      (drop_duplicates_id_mem _ _).mp (hperm.subset ht)
    exact hodsome t.1 (mem_zip3 ods oys oms htz).1
  · intro t
    rw [hperm.mem_iff, drop_duplicates_id_mem]
  · exact drop_duplicates_id_nodup _
  · intro p hp
    have hpz : p ∈ rgs.zip cts := (drop_duplicates_id_mem _ _).mp hp
    rcases List.of_mem_zip hpz with ⟨h1, h2⟩
    exact ⟨hrgsome p.1 h1, hctsome p.2 h2⟩
  · intro p
    exact drop_duplicates_id_mem _ _
  · exact drop_duplicates_id_nodup _
  · intro v hv
    exact hitsome v ((drop_duplicates_id_mem _ _).mp hv)
  · intro v
    exact drop_duplicates_id_mem _ _
  · exact drop_duplicates_id_nodup _
  · intro v hv
    exact hscsome v ((drop_duplicates_id_mem _ _).mp hv)
  · intro v
    exact drop_duplicates_id_mem _ _

/-- Witness for C7 on a two-row transformed frame sharing one order date and
one region with two countries: the country dimension holds the two distinct
pairs exactly once and the date dimension keys are distinct and non-null. -/
theorem load_dimensions_distinct_witness :
    ∃ dd dc,
      (load_dimensions
        [⟨"order_date", ColData.dates [some 1, some 1]⟩,
         ⟨"order_year", ColData.nums [some 2020, some 2020]⟩,
         ⟨"order_month", ColData.nums [some 1, some 1]⟩,
         ⟨"region", ColData.strs [some "Europe", some "Europe"]⟩,
         ⟨"country", ColData.strs [some "France", some "Germany"]⟩,
         ⟨"item_type", ColData.strs [some "Fruit", some "Fruit"]⟩,
         ⟨"sales_channel", ColData.strs [some "Online", some "Offline"]⟩]).1 = some dd ∧
      (load_dimensions
        [⟨"order_date", ColData.dates [some 1, some 1]⟩,
         ⟨"order_year", ColData.nums [some 2020, some 2020]⟩,
         ⟨"order_month", ColData.nums [some 1, some 1]⟩,
         ⟨"region", ColData.strs [some "Europe", some "Europe"]⟩,
         ⟨"country", ColData.strs [some "France", some "Germany"]⟩,
         ⟨"item_type", ColData.strs [some "Fruit", some "Fruit"]⟩,
         ⟨"sales_channel", ColData.strs [some "Online", some "Offline"]⟩]).2.1 = some dc ∧
      (dd.map fun t => t.1).Nodup ∧ dc.Nodup := by
  rcases load_dimensions_distinct
      [⟨"order_date", ColData.dates [some 1, some 1]⟩,
       ⟨"order_year", ColData.nums [some 2020, some 2020]⟩,
       ⟨"order_month", ColData.nums [some 1, some 1]⟩,
       ⟨"region", ColData.strs [some "Europe", some "Europe"]⟩,
       ⟨"country", ColData.strs [some "France", some "Germany"]⟩,
       ⟨"item_type", ColData.strs [some "Fruit", some "Fruit"]⟩,
       ⟨"sales_channel", ColData.strs [some "Online", some "Offline"]⟩]
      ⟨"order_date", ColData.dates [some 1, some 1]⟩
      ⟨"order_year", ColData.nums [some 2020, some 2020]⟩
      ⟨"order_month", ColData.nums [some 1, some 1]⟩
      ⟨"region", ColData.strs [some "Europe", some "Europe"]⟩
      ⟨"country", ColData.strs [some "France", some "Germany"]⟩
      ⟨"item_type", ColData.strs [some "Fruit", some "Fruit"]⟩
      ⟨"sales_channel", ColData.strs [some "Online", some "Offline"]⟩
      [some 1, some 1] [some 2020, some 2020] [some 1, some 1]
      [some "Europe", some "Europe"] [some "France", some "Germany"]
      [some "Fruit", some "Fruit"] [some "Online", some "Offline"]
      (by decide) rfl (by decide) rfl (by decide) rfl (by decide) rfl
      (by decide) rfl (by decide) rfl (by decide) rfl
      (by decide) (by decide) (by decide) (by decide) (by decide) (by decide)
    with ⟨dd, dc, di, dch, h1, h2, _, _, h5, _, _, h8, _⟩
  exact ⟨dd, dc, h1, h2, h5, h8⟩

theorem cells_length (d : ColData) : d.cells.length = d.len := by
  cases d <;> simp [ColData.cells, ColData.len]

theorem maskList_length {α : Type} (ks : List Bool) (xs : List α)
    (h : ks.length = xs.length) : (maskList ks xs).length = ks.countP id := by
  induction ks generalizing xs with
  | nil => simp [maskList]
  | cons k ks ih =>
    cases xs with
    | nil => simp at h
    | cons x xs =>
      rw [List.countP_cons]
      by_cases hk : k
      · subst hk
        rw [show maskList (true :: ks) (x :: xs) = x :: maskList ks xs from rfl]
        rw [List.length_cons, ih xs (by simpa using h)]
        simp
      · have hk' : k = false := Bool.eq_false_iff.mpr hk
        subst hk'
        rw [show maskList (false :: ks) (x :: xs) = maskList ks xs from rfl]
        rw [ih xs (by simpa using h)]
        simp

theorem maskList_map_self {α : Type} (p : α → Bool) (xs : List α) :
    maskList (xs.map p) xs = xs.filter p := by
  induction xs with
  | nil => rfl
  | cons x xs ih =>
    rw [List.map_cons, List.filter_cons]
    by_cases hp : p x
    · rw [hp]
      rw [show maskList (true :: xs.map p) (x :: xs) = x :: maskList (xs.map p) xs from rfl]
      rw [ih]
      simp
    · have hp' : p x = false := Bool.eq_false_iff.mpr hp
      rw [hp']
      rw [show maskList (false :: xs.map p) (x :: xs) = maskList (xs.map p) xs from rfl]
      rw [ih]
      simp

theorem mask_len (keep : List Bool) (d : ColData) (h : keep.length = d.len) :
    (d.mask keep).len = keep.countP id := by
  cases d <;> exact maskList_length keep _ (by simpa [ColData.len] using h)

theorem Rect_applyMask (keep : List Bool) (df : Df) (n : Nat)
    (h : Rect df n) (hk : keep.length = n) :
    Rect (applyMask keep df) (keep.countP id) := by
  intro c hc
  rcases List.mem_map.mp hc with ⟨c0, hc0, rfl⟩
  exact mask_len keep c0.data (by rw [hk, h c0 hc0])

theorem Rect_setCol (df : Df) (n : Nat) (nm : String) (d : ColData)
    (h : Rect df n) (hd : d.len = n) : Rect (setCol df nm d) n := by
  unfold setCol
  by_cases hcol : hasCol df nm
  · rw [if_pos hcol]
    intro c hc
    rcases List.mem_map.mp hc with ⟨c0, hc0, rfl⟩
    by_cases hn : c0.name = nm
    · rw [if_pos hn]
      exact hd
    · rw [if_neg hn]
      exact h c0 hc0
  · rw [if_neg hcol]
    intro c hc
    rcases List.mem_append.mp hc with hc | hc
    · exact h c hc
    · rw [List.mem_singleton.mp hc]
      exact hd

theorem findCol_applyMask (keep : List Bool) (df : Df) (nm : String) :
    findCol (applyMask keep df) nm =
      (findCol df nm).map fun c => ⟨c.name, c.data.mask keep⟩ := by
  induction df with
  | nil => rfl
  | cons c rest ih =>
    unfold applyMask
    rw [List.map_cons]
    simp only [findCol]
    by_cases hn : c.name = nm
    · rw [if_pos hn, if_pos hn]
      rfl
    · rw [if_neg hn, if_neg hn]
      exact ih

theorem fillnaColumn_len (c : Column) : (fillnaColumn c).data.len = c.data.len := by
  unfold fillnaColumn
  cases hd : c.data with
  | nums vs => simp [ColData.len]
  | strs vs => simp [ColData.len]
  | dates vs => rw [hd]

theorem Rect_imputeMissing (df : Df) (n : Nat) (h : Rect df n) :
    Rect (imputeMissing df) n := by
  intro c hc
  rcases List.mem_map.mp hc with ⟨c0, hc0, rfl⟩
  rw [fillnaColumn_len]
  exact h c0 hc0

theorem clipIfNamed_len (c : String) (col : Column) :
    (clipIfNamed c col).data.len = col.data.len := by
  unfold clipIfNamed
  by_cases hn : col.name = c
  · rw [if_pos hn]
    cases hd : col.data with
    | nums vs => simp [ColData.len, clipColVals_length]
    | strs vs => rw [hd]
    | dates vs => rw [hd]
  · rw [if_neg hn]

theorem Rect_handle_outliers (df : Df) (cols : List String) (n : Nat)
    (h : Rect df n) : Rect (handle_outliers_iqr df cols) n := by
  induction cols generalizing df with
  | nil => exact h
  | cons c cs ih =>
    unfold handle_outliers_iqr
    rw [List.foldl_cons]
    apply ih (df.map (clipIfNamed c))
    intro c2 hc2
    rcases List.mem_map.mp hc2 with ⟨c0, hc0, rfl⟩
    rw [clipIfNamed_len]
    exact h c0 hc0

theorem minMaxNormVals_length (vs : List (Option ℚ)) :
    (minMaxNormVals vs).length = vs.length := by
  unfold minMaxNormVals
  cases (vs.filterMap id).min? with
  | none => simp
  | some mn =>
    cases (vs.filterMap id).max? with
    | none => simp
    | some mx =>
      dsimp only
      by_cases he : mx = mn
      · rw [if_pos he]
        simp
      · rw [if_neg he]
        simp

theorem Rect_min_max_scale (df : Df) (cols : List String) (n : Nat)
    (h : Rect df n) : Rect (min_max_scale df cols) n := by
  induction cols generalizing df with
  | nil => exact h
  | cons c cs ih =>
    unfold min_max_scale
    rw [List.foldl_cons]
    apply ih
    cases hf : findCol df c with
    | none => exact h
    | some col =>
      dsimp only
      cases hd : col.data with
      | nums vs =>
        apply Rect_setCol _ _ _ _ h
        rw [ColData.len, minMaxNormVals_length]
        have := h col (findCol_mem df c col hf)
        rw [hd] at this
        exact this
      | strs vs => exact h
      | dates vs => exact h

theorem Rect_get_dummies (df : Df) (cols : List String) (n : Nat)
    (h : Rect df n) : Rect (get_dummies df cols) n := by
  intro c hc
  unfold get_dummies at hc
  rcases List.mem_append.mp hc with hc | hc
  · exact h c (List.mem_filter.mp hc).1
  · rcases List.mem_flatten.mp hc with ⟨cols2, hcols2, hccols2⟩
    rcases List.mem_map.mp hcols2 with ⟨nm, _, rfl⟩
    cases hf : findCol df nm with
    | none => rw [hf] at hccols2; simp at hccols2
    | some col =>
      rw [hf] at hccols2
      dsimp only at hccols2
      unfold dummyCols at hccols2
      rcases List.mem_map.mp hccols2 with ⟨v, _, rfl⟩
      show (ColData.nums _).len = n
      rw [ColData.len, List.length_map, cells_length]
      exact h col (findCol_mem df nm col hf)

theorem toNumericData_len (pn : String → Option ℚ) (d : ColData) :
    (toNumericData pn d).len = d.len := by
  cases d <;> simp [toNumericData, ColData.len]

theorem toDatetimeVals_length (ps : String → Option Int) (pq : ℚ → Option Int)
    (d : ColData) : (toDatetimeVals ps pq d).length = d.len := by
  cases d <;> simp [toDatetimeVals, ColData.len]

theorem Rect_reCoerceTypes (df : Df) (n : Nat) (pn : String → Option ℚ)
    (ps : String → Option Int) (pq : ℚ → Option Int) (ncols : List String)
    (dcols : List (Option String)) (h : Rect df n) :
    Rect (reCoerceTypes pn ps pq ncols dcols df) n := by
  unfold reCoerceTypes
  have h1 : ∀ (cols : List String) (d : Df), Rect d n →
      Rect (cols.foldl (fun d c => d.map fun col =>
        if col.name = c then ⟨col.name, toNumericData pn col.data⟩ else col) d) n := by
    intro cols
    induction cols with
    | nil => intro d hd; exact hd
    | cons c cs ih =>
      intro d hd
      rw [List.foldl_cons]
      apply ih
      intro c2 hc2
      rcases List.mem_map.mp hc2 with ⟨c0, hc0, rfl⟩
      by_cases hn : c0.name = c
      · rw [if_pos hn]
        show (toNumericData pn c0.data).len = n
        rw [toNumericData_len]
        exact hd c0 hc0
      · rw [if_neg hn]
        exact hd c0 hc0
  have h2 : ∀ (cols : List (Option String)) (d : Df), Rect d n →
      Rect (cols.foldl (fun d oc =>
        match oc with
        | some cn => d.map fun col =>
            if col.name = cn then ⟨col.name, ColData.dates (toDatetimeVals ps pq col.data)⟩
            else col
        | none => d) d) n := by
    intro cols
    induction cols with
    | nil => intro d hd; exact hd
    | cons oc cs ih =>
      intro d hd
      rw [List.foldl_cons]
      apply ih
      cases oc with
      | none => exact hd
      | some cn =>
        intro c2 hc2
        rcases List.mem_map.mp hc2 with ⟨c0, hc0, rfl⟩
        by_cases hn : c0.name = cn
        · rw [if_pos hn]
          show (ColData.dates (toDatetimeVals ps pq c0.data)).len = n
          rw [ColData.len, toDatetimeVals_length]
          exact hd c0 hc0
        · rw [if_neg hn]
          exact hd c0 hc0
  exact h2 dcols _ (h1 ncols df h)

theorem Rect_enrichPpu (df : Df) (n : Nat) (h : Rect df n)
    (htyP : ∀ c, findCol df "total_profit" = some c → ∃ vs, c.data = ColData.nums vs)
    (htyU : ∀ c, findCol df "units_sold" = some c → ∃ vs, c.data = ColData.nums vs) :
    Rect (enrichPpu df) n := by
  unfold enrichPpu
  cases h1 : findCol df "total_profit" with
  | none => exact h
  | some tp =>
    cases h2 : findCol df "units_sold" with
    | none => exact h
    | some us =>
      rcases htyP tp h1 with ⟨tps, htps⟩
      rcases htyU us h2 with ⟨uss, huss⟩
      apply Rect_setCol _ _ _ _ h
      rw [htps, huss]
      show (ColData.nums (List.zipWith zdiv tps uss)).len = n
      rw [ColData.len, List.length_zipWith]
      have e1 := h tp (findCol_mem _ _ _ h1)
      rw [htps] at e1
      have e2 := h us (findCol_mem _ _ _ h2)
      rw [huss] at e2
      simp [ColData.len] at e1 e2
      omega

theorem Rect_enrichRpu (df : Df) (n : Nat) (h : Rect df n)
    (htyR : ∀ c, findCol df "total_revenue" = some c → ∃ vs, c.data = ColData.nums vs)
    (htyU : ∀ c, findCol df "units_sold" = some c → ∃ vs, c.data = ColData.nums vs) :
    Rect (enrichRpu df) n := by
  unfold enrichRpu
  cases h1 : findCol df "total_revenue" with
  | none => exact h
  | some tr =>
    cases h2 : findCol df "units_sold" with
    | none => exact h
    | some us =>
      rcases htyR tr h1 with ⟨trs, htrs⟩
      rcases htyU us h2 with ⟨uss, huss⟩
      apply Rect_setCol _ _ _ _ h
      rw [htrs, huss]
      show (ColData.nums (List.zipWith zdiv trs uss)).len = n
      rw [ColData.len, List.length_zipWith]
      have e1 := h tr (findCol_mem _ _ _ h1)
      rw [htrs] at e1
      have e2 := h us (findCol_mem _ _ _ h2)
      rw [huss] at e2
      simp [ColData.len] at e1 e2
      omega

theorem Rect_enrichPmr (df : Df) (n : Nat) (h : Rect df n)
    (htyR : ∀ c, findCol df "total_revenue" = some c → ∃ vs, c.data = ColData.nums vs)
    (htyP : ∀ c, findCol df "total_profit" = some c → ∃ vs, c.data = ColData.nums vs) :
    Rect (enrichPmr df) n := by
  unfold enrichPmr
  cases h1 : findCol df "total_revenue" with
  | none => exact h
  | some tr =>
    cases h2 : findCol df "total_profit" with
    | none => exact h
    | some tp =>
      rcases htyR tr h1 with ⟨trs, htrs⟩
      rcases htyP tp h2 with ⟨tps, htps⟩
      apply Rect_setCol _ _ _ _ h
      rw [htrs, htps]
      show (ColData.nums (List.zipWith zdiv tps trs)).len = n
      rw [ColData.len, List.length_zipWith]
      have e1 := h tr (findCol_mem _ _ _ h1)
      rw [htrs] at e1
      have e2 := h tp (findCol_mem _ _ _ h2)
      rw [htps] at e2
      simp [ColData.len] at e1 e2
      omega

theorem Rect_enrichShip (odn sdn : Option String) (df : Df) (n : Nat) (h : Rect df n)
    (htyO : ∀ oN c, odn = some oN → findCol df oN = some c →
      ∃ vs, c.data = ColData.dates vs)
    (htyS : ∀ sN c, sdn = some sN → findCol df sN = some c →
      ∃ vs, c.data = ColData.dates vs) :
    Rect (enrichShip odn sdn df) n := by
  unfold enrichShip
  cases odn with
  | none => exact h
  | some oN =>
    cases sdn with
    | none => exact h
    | some sN =>
      dsimp only
      cases h1 : findCol df oN with
      | none => exact h
      | some oc =>
        cases h2 : findCol df sN with
        | none => exact h
        | some sc2 =>
          rcases htyO oN oc rfl h1 with ⟨ods, hods⟩
          rcases htyS sN sc2 rfl h2 with ⟨sds, hsds⟩
          apply Rect_setCol _ _ _ _ h
          rw [hods, hsds]
          show (ColData.nums (List.zipWith shipDiff sds ods)).len = n
          rw [ColData.len, List.length_zipWith]
          have e1 := h oc (findCol_mem _ _ _ h1)
          rw [hods] at e1
          have e2 := h sc2 (findCol_mem _ _ _ h2)
          rw [hsds] at e2
          simp [ColData.len] at e1 e2
          omega

theorem Rect_enrichYear (yearOf : Int → Int) (odn : Option String) (df : Df)
    (n : Nat) (h : Rect df n)
    (htyO : ∀ oN c, odn = some oN → findCol df oN = some c →
      ∃ vs, c.data = ColData.dates vs) :
    Rect (enrichYear yearOf odn df) n := by
  unfold enrichYear
  cases odn with
  | none => exact h
  | some oN =>
    dsimp only
    cases h1 : findCol df oN with
    | none => exact h
    | some oc =>
      rcases htyO oN oc rfl h1 with ⟨ods, hods⟩
      apply Rect_setCol _ _ _ _ h
      rw [hods]
      show (ColData.nums (ods.map (Option.map fun z => ((yearOf z : Int) : ℚ)))).len = n
      rw [ColData.len, List.length_map]
      have e1 := h oc (findCol_mem _ _ _ h1)
      rw [hods] at e1
      simpa [ColData.len] using e1

theorem Rect_enrichMonth (monthOf : Int → Int) (odn : Option String) (df : Df)
    (n : Nat) (h : Rect df n)
    (htyO : ∀ oN c, odn = some oN → findCol df oN = some c →
      ∃ vs, c.data = ColData.dates vs) :
    Rect (enrichMonth monthOf odn df) n := by
  unfold enrichMonth
  cases odn with
  | none => exact h
  | some oN =>
    dsimp only
    cases h1 : findCol df oN with
    | none => exact h
    | some oc =>
      rcases htyO oN oc rfl h1 with ⟨ods, hods⟩
      apply Rect_setCol _ _ _ _ h
      rw [hods]
      show (ColData.nums (ods.map (Option.map fun z => ((monthOf z : Int) : ℚ)))).len = n
      rw [ColData.len, List.length_map]
      have e1 := h oc (findCol_mem _ _ _ h1)
      rw [hods] at e1
      simpa [ColData.len] using e1

/-- Enrichment adds columns and preserves the row count: under the column
typings holding in `transform_sales` at step 4 (ratio inputs numeric, date
columns datetime after step 3.4), `dfEnrich` is rectangularity-preserving. -/
theorem Rect_dfEnrich (yearOf monthOf : Int → Int) (odn sdn : Option String)
    (df : Df) (n : Nat) (h : Rect df n)
    (hodn : odn = none ∨ odn = some "order_date")
    (hsdn : sdn = none ∨ sdn = some "ship_date")
    (htyP : ∀ c, findCol df "total_profit" = some c → ∃ vs, c.data = ColData.nums vs)
    (htyU : ∀ c, findCol df "units_sold" = some c → ∃ vs, c.data = ColData.nums vs)
    (htyR : ∀ c, findCol df "total_revenue" = some c → ∃ vs, c.data = ColData.nums vs)
    (htyO : ∀ c, findCol df "order_date" = some c → ∃ vs, c.data = ColData.dates vs)
    (htyS : ∀ c, findCol df "ship_date" = some c → ∃ vs, c.data = ColData.dates vs) :
    Rect (dfEnrich yearOf monthOf odn sdn df) n := by
  have t1 : Rect (enrichPpu df) n := Rect_enrichPpu df n h htyP htyU
  have pU1 : ∀ c, findCol (enrichPpu df) "units_sold" = some c →
      ∃ vs, c.data = ColData.nums vs := by
    intro c hc
    rw [enrichPpu_preserves df _ (by decide)] at hc
    exact htyU c hc
  have pR1 : ∀ c, findCol (enrichPpu df) "total_revenue" = some c →
      ∃ vs, c.data = ColData.nums vs := by
    intro c hc
    rw [enrichPpu_preserves df _ (by decide)] at hc
    exact htyR c hc
  have pP1 : ∀ c, findCol (enrichPpu df) "total_profit" = some c →
      ∃ vs, c.data = ColData.nums vs := by
    intro c hc
    rw [enrichPpu_preserves df _ (by decide)] at hc
    exact htyP c hc
  have pO1 : ∀ c, findCol (enrichPpu df) "order_date" = some c →
      ∃ vs, c.data = ColData.dates vs := by
    intro c hc
    rw [enrichPpu_preserves df _ (by decide)] at hc
    exact htyO c hc
  have pS1 : ∀ c, findCol (enrichPpu df) "ship_date" = some c →
      ∃ vs, c.data = ColData.dates vs := by
    intro c hc
    rw [enrichPpu_preserves df _ (by decide)] at hc
    exact htyS c hc
  have t2 : Rect (enrichRpu (enrichPpu df)) n := Rect_enrichRpu _ n t1 pR1 pU1
  have pR2 : ∀ c, findCol (enrichRpu (enrichPpu df)) "total_revenue" = some c →
      ∃ vs, c.data = ColData.nums vs := by
    intro c hc
    rw [enrichRpu_preserves _ _ (by decide)] at hc
    exact pR1 c hc
  have pP2 : ∀ c, findCol (enrichRpu (enrichPpu df)) "total_profit" = some c →
      ∃ vs, c.data = ColData.nums vs := by
    intro c hc
    rw [enrichRpu_preserves _ _ (by decide)] at hc
    exact pP1 c hc
  have pO2 : ∀ c, findCol (enrichRpu (enrichPpu df)) "order_date" = some c →
      ∃ vs, c.data = ColData.dates vs := by
    intro c hc
    rw [enrichRpu_preserves _ _ (by decide)] at hc
    exact pO1 c hc
  have pS2 : ∀ c, findCol (enrichRpu (enrichPpu df)) "ship_date" = some c →
      ∃ vs, c.data = ColData.dates vs := by
    intro c hc
    rw [enrichRpu_preserves _ _ (by decide)] at hc
    exact pS1 c hc
  have t3 : Rect (enrichPmr (enrichRpu (enrichPpu df))) n :=
    Rect_enrichPmr _ n t2 pR2 pP2
  have pO3 : ∀ c, findCol (enrichPmr (enrichRpu (enrichPpu df))) "order_date" = some c →
      ∃ vs, c.data = ColData.dates vs := by
    intro c hc
    rw [enrichPmr_preserves _ _ (by decide)] at hc
    exact pO2 c hc
  have pS3 : ∀ c, findCol (enrichPmr (enrichRpu (enrichPpu df))) "ship_date" = some c →
      ∃ vs, c.data = ColData.dates vs := by
    intro c hc
    rw [enrichPmr_preserves _ _ (by decide)] at hc
    exact pS2 c hc
  have hoName : ∀ oN c, odn = some oN →
      findCol (enrichPmr (enrichRpu (enrichPpu df))) oN = some c →
      ∃ vs, c.data = ColData.dates vs := by
    intro oN c hoN hc
    rcases hodn with hn | hn
    · rw [hn] at hoN
      cases hoN
    · rw [hn] at hoN
      cases hoN
      exact pO3 c hc
  have hsName : ∀ sN c, sdn = some sN →
      findCol (enrichPmr (enrichRpu (enrichPpu df))) sN = some c →
      ∃ vs, c.data = ColData.dates vs := by
    intro sN c hsN hc
    rcases hsdn with hn | hn
    · rw [hn] at hsN
      cases hsN
    · rw [hn] at hsN
      cases hsN
      exact pS3 c hc
  have t4 : Rect (enrichShip odn sdn (enrichPmr (enrichRpu (enrichPpu df)))) n :=
    Rect_enrichShip odn sdn _ n t3 hoName hsName
  have pO4 : ∀ oN c, odn = some oN →
      findCol (enrichShip odn sdn (enrichPmr (enrichRpu (enrichPpu df)))) oN = some c →
      ∃ vs, c.data = ColData.dates vs := by
    intro oN c hoN hc
    rcases hodn with hn | hn
    · rw [hn] at hoN
      cases hoN
    · rw [hn] at hoN
      cases hoN
      rw [enrichShip_preserves _ _ _ _ (by decide)] at hc
      exact pO3 c hc
  have t5 : Rect (enrichYear yearOf odn
      (enrichShip odn sdn (enrichPmr (enrichRpu (enrichPpu df))))) n :=
    Rect_enrichYear yearOf odn _ n t4 pO4
  have pO5 : ∀ oN c, odn = some oN →
      findCol (enrichYear yearOf odn
        (enrichShip odn sdn (enrichPmr (enrichRpu (enrichPpu df))))) oN = some c →
      ∃ vs, c.data = ColData.dates vs := by
    intro oN c hoN hc
    rcases hodn with hn | hn
    · rw [hn] at hoN
      cases hoN
    · rw [hn] at hoN
      cases hoN
      rw [enrichYear_preserves _ _ _ _ (by decide)] at hc
      exact pO4 _ c hn hc
  exact Rect_enrichMonth monthOf odn _ n t5 pO5

theorem mask_dates_filter (l : List (Option Int)) :
    (ColData.dates l).mask (l.map Option.isSome) =
      ColData.dates (l.filter Option.isSome) := by
  show ColData.dates (maskList (l.map Option.isSome) l) =
    ColData.dates (l.filter Option.isSome)
  rw [maskList_map_self]

theorem coerce_order_date_eq (ps : String → Option Int) (pq : ℚ → Option Int)
    (odn : String) (df : Df) (c : Column) (vs : List (Option String))
    (hfc : findCol df odn = some c) (hd : c.data = ColData.strs vs) :
    coerce_order_date ps pq odn df =
      applyMask ((vs.map fun v => v.bind ps).map Option.isSome)
        (setCol df odn (ColData.dates (vs.map fun v => v.bind ps))) := by
  unfold coerce_order_date
  rw [hfc]
  dsimp only
  rw [hd]
  rfl

theorem coerce_order_date_rect (ps : String → Option Int) (pq : ℚ → Option Int)
    (odn : String) (df : Df) (c : Column) (vs : List (Option String)) (n : Nat)
    (hRect : Rect df n) (hfc : findCol df odn = some c)
    (hd : c.data = ColData.strs vs) :
    Rect (coerce_order_date ps pq odn df)
      ((vs.map fun v => v.bind ps).countP Option.isSome) := by
  rw [coerce_order_date_eq ps pq odn df c vs hfc hd]
  have hvslen : vs.length = n := by
    have := hRect c (findCol_mem _ _ _ hfc)
    rw [hd] at this
    exact this
  have hlen : (vs.map fun v => v.bind ps).length = n := by
    rw [List.length_map]
    exact hvslen
  have hlen2 : (ColData.dates (vs.map fun v => v.bind ps)).len = n := hlen
  have hmask := Rect_applyMask ((vs.map fun v => v.bind ps).map Option.isSome) _ n
    (Rect_setCol df n odn (ColData.dates (vs.map fun v => v.bind ps)) hRect hlen2)
    (by rw [List.length_map]; exact hlen)
  have hcnt : ((vs.map fun v => v.bind ps).map Option.isSome).countP id =
      (vs.map fun v => v.bind ps).countP Option.isSome := by
    rw [List.countP_map]
    rfl
  rwa [hcnt] at hmask

theorem coerce_order_date_od_col (ps : String → Option Int) (pq : ℚ → Option Int)
    (odn : String) (df : Df) (c : Column) (vs : List (Option String))
    (hfc : findCol df odn = some c) (hd : c.data = ColData.strs vs) :
    findCol (coerce_order_date ps pq odn df) odn =
      some ⟨odn, ColData.dates ((vs.map fun v => v.bind ps).filter Option.isSome)⟩ := by
  rw [coerce_order_date_eq ps pq odn df c vs hfc hd, findCol_applyMask,
    findCol_setCol_self, Option.map_some', mask_dates_filter]

theorem coerce_ship_date_spec (ps : String → Option Int) (pq : ℚ → Option Int)
    (sdn : String) (df : Df) (c : Column) (vs : List (Option String)) (n : Nat)
    (hRect : Rect df n) (hfc : findCol df sdn = some c)
    (hd : c.data = ColData.strs vs) :
    Rect (coerce_ship_date ps pq sdn df) n ∧
    findCol (coerce_ship_date ps pq sdn df) sdn =
      some ⟨sdn, ColData.dates (vs.map fun v => v.bind ps)⟩ := by
  unfold coerce_ship_date
  rw [hfc]
  dsimp only
  constructor
  · apply Rect_setCol _ _ _ _ hRect
    rw [hd]
    show (vs.map fun v => v.bind ps).length = n
    rw [List.length_map]
    have := hRect c (findCol_mem _ _ _ hfc)
    rw [hd] at this
    exact this
  · rw [hd]
    exact findCol_setCol_self df sdn _

/-- C5 amended: in `transform_sales`, the order-date coercion (step 2.3,
lines 169-175) drops exactly the rows whose order-date value fails coercion —
the surviving order-date column is the in-order list of the parseable dates,
with none missing, and every column is filtered by the same row mask, the row
count becoming the number of parseable order dates; the ship-date coercion
(lines 177-181) keeps all rows and records failures as missing ship dates;
and every other post-deduplication step of the transform — imputation,
outlier clipping, min-max normalization, one-hot encoding, dtype re-coercion
and enrichment (the latter under the column typings holding at step 4) —
preserves the row count, so the order-date drop is the only automatic
row-removal path.  The dropped count, however, is not logged or reported (see
the counterexample). -/
theorem order_date_drop_only_row_removal (ps : String → Option Int)
    (pq : ℚ → Option Int) (odn : String) (df : Df) (c : Column)
    (vs : List (Option String)) (n : Nat) (hRect : Rect df n)
    (hfc : findCol df odn = some c) (hd : c.data = ColData.strs vs) :
    coerce_order_date ps pq odn df =
      applyMask ((vs.map fun v => v.bind ps).map Option.isSome)
        (setCol df odn (ColData.dates (vs.map fun v => v.bind ps))) ∧
    Rect (coerce_order_date ps pq odn df)
      ((vs.map fun v => v.bind ps).countP Option.isSome) ∧
    findCol (coerce_order_date ps pq odn df) odn =
      some ⟨odn, ColData.dates ((vs.map fun v => v.bind ps).filter Option.isSome)⟩ ∧
    (∀ v ∈ (vs.map fun v => v.bind ps).filter Option.isSome, v.isSome = true) ∧
    (∀ (df₂ : Df) (m : Nat) (sdn : String) (c₂ : Column) (ws : List (Option String)),
      Rect df₂ m → findCol df₂ sdn = some c₂ → c₂.data = ColData.strs ws →
      Rect (coerce_ship_date ps pq sdn df₂) m ∧
      findCol (coerce_ship_date ps pq sdn df₂) sdn =
        some ⟨sdn, ColData.dates (ws.map fun v => v.bind ps)⟩) ∧
    (∀ (df₂ : Df) (m : Nat), Rect df₂ m → Rect (imputeMissing df₂) m) ∧
    (∀ (df₂ : Df) (m : Nat) (cols : List String), Rect df₂ m →
      Rect (handle_outliers_iqr df₂ cols) m) ∧
    (∀ (df₂ : Df) (m : Nat) (cols : List String), Rect df₂ m →
      Rect (min_max_scale df₂ cols) m) ∧
    (∀ (df₂ : Df) (m : Nat) (cols : List String), Rect df₂ m →
      Rect (get_dummies df₂ cols) m) ∧
    (∀ (df₂ : Df) (m : Nat) (pn : String → Option ℚ) (ncols : List String)
      (dcols : List (Option String)), Rect df₂ m →
      Rect (reCoerceTypes pn ps pq ncols dcols df₂) m) ∧
    (∀ (df₂ : Df) (m : Nat) (yearOf monthOf : Int → Int) (odn2 sdn2 : Option String),
      Rect df₂ m →
      (odn2 = none ∨ odn2 = some "order_date") →
      (sdn2 = none ∨ sdn2 = some "ship_date") →
      (∀ c₂, findCol df₂ "total_profit" = some c₂ → ∃ ws, c₂.data = ColData.nums ws) →
      (∀ c₂, findCol df₂ "units_sold" = some c₂ → ∃ ws, c₂.data = ColData.nums ws) →
      (∀ c₂, findCol df₂ "total_revenue" = some c₂ → ∃ ws, c₂.data = ColData.nums ws) →
      (∀ c₂, findCol df₂ "order_date" = some c₂ → ∃ ws, c₂.data = ColData.dates ws) →
      (∀ c₂, findCol df₂ "ship_date" = some c₂ → ∃ ws, c₂.data = ColData.dates ws) →
      Rect (dfEnrich yearOf monthOf odn2 sdn2 df₂) m) := by
  refine ⟨coerce_order_date_eq ps pq odn df c vs hfc hd,
    coerce_order_date_rect ps pq odn df c vs n hRect hfc hd,
    coerce_order_date_od_col ps pq odn df c vs hfc hd,
    ?_, ?_, ?_, ?_, ?_, ?_, ?_, ?_⟩
  · intro v hv
    exact (List.mem_filter.mp hv).2
  · intro df₂ m sdn c₂ ws hR hf hdw
    exact coerce_ship_date_spec ps pq sdn df₂ c₂ ws m hR hf hdw
  · exact fun df₂ m hR => Rect_imputeMissing df₂ m hR
  · exact fun df₂ m cols hR => Rect_handle_outliers df₂ cols m hR
  · exact fun df₂ m cols hR => Rect_min_max_scale df₂ cols m hR
  · exact fun df₂ m cols hR => Rect_get_dummies df₂ cols m hR
  · exact fun df₂ m pn ncols dcols hR => Rect_reCoerceTypes df₂ m pn ps pq ncols dcols hR
  · exact fun df₂ m yearOf monthOf odn2 sdn2 hR ho hs h1 h2 h3 h4 h5 =>
      Rect_dfEnrich yearOf monthOf odn2 sdn2 df₂ m hR ho hs h1 h2 h3 h4 h5

/-- A concrete cell-level date parser used by the C5 example runs. -/
def exParse : String → Option Int := fun s =>
  if s = "d1" then some 1 else if s = "d2" then some 2
  else if s = "d3" then some 3 else none

/-- Witness for C5 (amended): of two rows, the one with the unparseable order
date is dropped, the parseable one survives in place. -/
theorem order_date_drop_only_row_removal_witness :
    Rect (coerce_order_date exParse (fun _ => none) "order_date"
      [⟨"order_date", ColData.strs [some "d1", some "bad"]⟩]) 1 ∧
    findCol (coerce_order_date exParse (fun _ => none) "order_date"
      [⟨"order_date", ColData.strs [some "d1", some "bad"]⟩]) "order_date" =
      some ⟨"order_date", ColData.dates [some 1]⟩ := by
  have h := order_date_drop_only_row_removal exParse (fun _ => none) "order_date"
    [⟨"order_date", ColData.strs [some "d1", some "bad"]⟩]
    ⟨"order_date", ColData.strs [some "d1", some "bad"]⟩
    [some "d1", some "bad"] 2
    (by intro c2 hc2; rw [List.mem_singleton.mp hc2]; rfl) (by decide) rfl
  constructor
  · have h2 := h.2.1
    have he : (([some "d1", some "bad"].map fun v => v.bind exParse).countP
        Option.isSome) = 1 := by decide
    rwa [he] at h2
  · have h3 := h.2.2.1
    have he : (([some "d1", some "bad"].map fun v => v.bind exParse).filter
        Option.isSome) = [some 1] := by decide
    rwa [he] at h3

/-- C5 counterexample, refuting the claim's logged/reported dropped count: a
five-row input with two unparseable order dates loses exactly those two rows,
and the transform's only reported artifact — the quality report it prints —
carries exactly the six fixed check keys, none of which is a dropped-row
count. -/
theorem date_drop_count_not_reported :
    (∀ c ∈ [⟨"order_id", ColData.nums [some 1, some 2, some 3, some 4, some 5]⟩,
            ⟨"order_date", ColData.strs
              [some "d1", some "bad", some "d2", some "oops", some "d3"]⟩,
            (⟨"units_sold", ColData.nums
              [some 10, some 20, some 30, some 40, some 50]⟩ : Column)],
       c.data.len = 5) ∧
    coerce_order_date exParse (fun _ => none) "order_date"
      [⟨"order_id", ColData.nums [some 1, some 2, some 3, some 4, some 5]⟩,
       ⟨"order_date", ColData.strs
         [some "d1", some "bad", some "d2", some "oops", some "d3"]⟩,
       ⟨"units_sold", ColData.nums [some 10, some 20, some 30, some 40, some 50]⟩] =
      [⟨"order_id", ColData.nums [some 1, some 3, some 5]⟩,
       ⟨"order_date", ColData.dates [some 1, some 2, some 3]⟩,
       ⟨"units_sold", ColData.nums [some 10, some 30, some 50]⟩] ∧
    (∃ rep, run_data_quality_checks
        [⟨"order_id", ColData.nums [some 1, some 3, some 5]⟩,
         ⟨"order_date", ColData.dates [some 1, some 2, some 3]⟩,
         ⟨"units_sold", ColData.nums [some 10, some 30, some 50]⟩]
        "order_id" ["units_sold"] = Except.ok rep ∧
      rep.map Prod.fst =
        ["uniqueness_pk_duplicates", "null_counts_per_column",
         "range_negative_values", "dtypes", "referential_integrity_pk_null",
         "distribution_numeric_describe"]) := by
  refine ⟨by decide, by decide, ?_⟩
  apply report_keys_full
    [⟨"order_id", ColData.nums [some 1, some 3, some 5]⟩,
     ⟨"order_date", ColData.dates [some 1, some 2, some 3]⟩,
     ⟨"units_sold", ColData.nums [some 10, some 30, some 50]⟩]
    "order_id" ["units_sold"] (by decide) ?ty ?all
    ⟨"order_id", ColData.nums [some 1, some 3, some 5]⟩ (by decide)
  case ty =>
    intro nc hnc cc hcc
    have hnc' : nc = "units_sold" := List.mem_singleton.mp hnc
    subst hnc'
    have he : findCol
        [⟨"order_id", ColData.nums [some 1, some 3, some 5]⟩,
         ⟨"order_date", ColData.dates [some 1, some 2, some 3]⟩,
         (⟨"units_sold", ColData.nums [some 10, some 30, some 50]⟩ : Column)]
        "units_sold" = some ⟨"units_sold", ColData.nums [some 10, some 30, some 50]⟩ := by
      decide
    rw [he] at hcc
    cases hcc
    exact ⟨[some 10, some 30, some 50], rfl⟩
  case all =>
    intro nc hnc
    have hnc' : nc = "units_sold" := List.mem_singleton.mp hnc
    subst hnc'
    decide

end ETL
